import Mathlib

/-!
# Watch store and recommender of `src/server.cpp`

A shallow embedding of the shared state of the server (the two global maps
`userWatchHistory` and `videoPopularity`) and of the two functions that touch it,
`updateWatchHistory` and `generateRecommendations`.

Modelling conventions.

* `std::unordered_map<std::string, β>` is an association list `List (String × β)`;
  `std::unordered_set<std::string>` is a `List String`.  The list order stands for the
  container's iteration order, which C++ leaves unspecified.  A new key or element is put at
  the end.  The theorems below quantify over every well-formed list, hence over every
  iteration order the container may have.
* `int` is a 32 bit two's complement integer: a value is an `Int`, and every arithmetic
  result is reduced by `wrapInt`.
* `std::sort` with the comparator `a.second > b.second` is an insertion sort driven by
  the same comparator.  `std::sort` is not stable and fixes no order among equal scores;
  the theorems use only that the output is a permutation of the input in which no later
  element compares greater than an earlier one.
* The writes to `std::cout` are log lines and are left out.  The mutex is taken and
  released inside each call; a call is one atomic step on the store.
* `handleClient` is the receive loop of one connection.  Its input is the list of request
  texts, one for each `recv` that returned data, each being the `std::string` built from
  the buffer; its output is the list of responses passed to `send`.  `handleRequest` is the
  body of the loop.  Socket calls are left out.
* `iss >> token` is `extract`: it skips the whitespace of the classic locale and reads up to
  the next whitespace or the end of the text.  A stream at its end yields empty tokens,
  which is what the fail state of the stream leaves in the freshly built strings.
-/

namespace Server

/-! ## Machine integers -/

/-- Least value of a 32 bit `int`. -/
def INT_MIN : Int := -2147483648

/-- Greatest value of a 32 bit `int`. -/
def INT_MAX : Int := 2147483647

/-- The value an `int` holds after an arithmetic operation whose exact result is `z`. -/
def wrapInt (z : Int) : Int := (z + 2147483648) % 4294967296 - 2147483648

/-! ## Unordered containers -/

/-- An `std::unordered_map<std::string, β>`: keys with their values, in iteration order. -/
abbrev StrMap (β : Type) := List (String × β)

/-- The lookup `m.find(k)`: the value stored under `k`, if any. -/
def mapFind {β : Type} (k : String) : StrMap β → Option β
  | [] => none
  | (k', b) :: rest => if k' = k then some b else mapFind k rest

/-- The access `m[k]` used as an lvalue that is then changed by `f`: a missing key is first
value-initialised to `dflt`. -/
def mapModify {β : Type} (k : String) (dflt : β) (f : β → β) : StrMap β → StrMap β
  | [] => [(k, f dflt)]
  | (k', b) :: rest =>
    if k' = k then (k', f b) :: rest else (k', b) :: mapModify k dflt f rest

/-- The access `m[k]` used as an rvalue: the value read, and the map, which gains the entry
`(k, dflt)` when `k` was missing. -/
def mapIndex {β : Type} (k : String) (dflt : β) (m : StrMap β) : β × StrMap β :=
  match mapFind k m with
  | some b => (b, m)
  | none => (dflt, m ++ [(k, dflt)])

/-- The call `s.insert(v)` on an `std::unordered_set`: nothing happens when `v` is present. -/
def setInsert (v : String) (s : List String) : List String :=
  if v ∈ s then s else s ++ [v]

/-! ## The store -/

/-- The two global maps of `server.cpp` (lines 16-17). -/
structure Store where
  /-- User to watched video IDs. -/
  userWatchHistory : StrMap (List String)
  /-- Video ID to views count. -/
  videoPopularity : StrMap Int
deriving DecidableEq

/-- The store at process start: both maps empty. -/
def emptyStore : Store := Store.mk [] []

/-- Representation invariant of the containers: keys are unique, a set holds no element
twice, and every count is a value of type `int`. -/
def Store.WF (s : Store) : Prop :=
  (s.userWatchHistory.map Prod.fst).Nodup ∧
  (∀ p ∈ s.userWatchHistory, p.2.Nodup) ∧
  (s.videoPopularity.map Prod.fst).Nodup ∧
  (∀ p ∈ s.videoPopularity, INT_MIN ≤ p.2 ∧ p.2 ≤ INT_MAX)

instance (s : Store) : Decidable s.WF := by
  unfold Store.WF
  infer_instance

/-- The watch-set of a user; empty for a user without an entry. -/
def watchSet (s : Store) (userId : String) : List String :=
  (mapFind userId s.userWatchHistory).getD []

/-- The view count of a video; `0` for a video without an entry, which is what
`videoPopularity[videoId]` reads. -/
def popularity (s : Store) (videoId : String) : Int :=
  (mapFind videoId s.videoPopularity).getD 0

/-- Lines 21-26: insert the video into the user's watch-set and count one more view. -/
def updateWatchHistory (s : Store) (userId videoId : String) : Store :=
  Store.mk
    (mapModify userId [] (setInsert videoId) s.userWatchHistory)
    (mapModify videoId 0 (fun c => wrapInt (c + 1)) s.videoPopularity)

/-- The call `updateWatchHistory(userId, videoId)` made `n` times in a row. -/
def repeatWatch : Nat → Store → String → String → Store
  | 0, s, _, _ => s
  | n + 1, s, userId, videoId => repeatWatch n (updateWatchHistory s userId videoId) userId videoId

/-- A sequence of `updateWatchHistory` calls, given as (user, video) pairs, oldest first. -/
def recordAll (s : Store) : List (String × String) → Store
  | [] => s
  | e :: rest => recordAll (updateWatchHistory s e.1 e.2) rest

/-- A store is reachable when some sequence of calls builds it from the empty store. -/
def Reachable (s : Store) : Prop := ∃ events, s = recordAll emptyStore events

/-- The number of calls in a sequence whose video argument is `v`. -/
def watchEvents (events : List (String × String)) (v : String) : Nat :=
  events.countP (fun e => decide (e.2 = v))

/-! ## The recommender -/

/-- Lines 35-39: the loop over one user's videos.  The accumulator is the pair of
`recommendationScores` and `videoPopularity`. -/
def scoreVideos (videoId : String) :
    List String → StrMap Int × StrMap Int → StrMap Int × StrMap Int
  | [], acc => acc
  | watchedVideo :: rest, (scores, pop) =>
    if watchedVideo ≠ videoId then
      scoreVideos videoId rest
        (mapModify watchedVideo 0 (fun x => wrapInt (x + (mapIndex watchedVideo 0 pop).1)) scores,
         (mapIndex watchedVideo 0 pop).2)
    else scoreVideos videoId rest (scores, pop)

/-- Lines 33-41: the loop over all users; only a user who watched `videoId` contributes. -/
def scoreUsers (videoId : String) :
    StrMap (List String) → StrMap Int × StrMap Int → StrMap Int × StrMap Int
  | [], acc => acc
  | (_, videos) :: rest, acc =>
    if videoId ∈ videos then scoreUsers videoId rest (scoreVideos videoId videos acc)
    else scoreUsers videoId rest acc

/-- The map `recommendationScores` after the loops (first component) and the map
`videoPopularity` after them (second component). -/
def recommendationScores (s : Store) (videoId : String) : StrMap Int × StrMap Int :=
  scoreUsers videoId s.userWatchHistory ([], s.videoPopularity)

/-- The comparator of line 47. -/
def scoreGreater (a b : String × Int) : Bool := decide (a.2 > b.2)

/-- Lines 44-47: the vector `scoredRecommendations` after `std::sort`. -/
def scoredRecommendations (s : Store) (videoId : String) : List (String × Int) :=
  List.insertionSort (fun a b => scoreGreater b a = false) (recommendationScores s videoId).1

/-- Lines 29-58: the recommendations returned, and the store after the call. -/
def generateRecommendations (s : Store) (videoId : String) : List String × Store :=
  (((scoredRecommendations s videoId).take
      (min (scoredRecommendations s videoId).length 10)).map Prod.fst,
   Store.mk s.userWatchHistory (recommendationScores s videoId).2)

/-- The score accumulated for a video; `0` for a video without a score entry. -/
def scoreOf (s : Store) (videoId w : String) : Int :=
  (mapFind w (recommendationScores s videoId).1).getD 0

/-- The users whose watch-set contains both `videoId` and `w`. -/
def coWatchers (s : Store) (videoId w : String) : List String :=
  (s.userWatchHistory.filter (fun p => decide (videoId ∈ p.2) && decide (w ∈ p.2))).map Prod.fst

/-- The distinct videos other than `videoId` in the watch-set of some user who watched
`videoId`. -/
def candidates (s : Store) (videoId : String) : List String :=
  (((s.userWatchHistory.filter (fun p => decide (videoId ∈ p.2))).flatMap Prod.snd).filter
    (fun w => decide (w ≠ videoId))).dedup

/-- The number of times the loops of `generateRecommendations(videoId)` meet the video `w`:
once for each occurrence of `w` in the watch-set of a user who watched `videoId`. -/
def coWatchOccurrences (videoId w : String) : StrMap (List String) → Nat
  | [] => 0
  | (_, videos) :: rest =>
    (if videoId ∈ videos then videos.count w else 0) + coWatchOccurrences videoId w rest

/-- The candidates in the order of the sorted vector `scoredRecommendations`;
`generateRecommendations` returns the first ten of them. -/
def ranking (s : Store) (videoId : String) : List String :=
  (scoredRecommendations s videoId).map Prod.fst

/-! ## The request handler -/

/-- Whitespace of the classic locale, which `operator>>` skips and at which a token ends:
space, tab, line feed, vertical tab, form feed, carriage return. -/
def isSpace (c : Char) : Bool :=
  decide (c.toNat = 32) || (decide (9 ≤ c.toNat) && decide (c.toNat ≤ 13))

/-- The extraction `iss >> token`: skip whitespace, then read up to the next whitespace or
the end of the text.  Gives the token and the rest of the stream.  At the end of the text
the token is empty, as is every later one. -/
def extract (input : List Char) : List Char × List Char :=
  ((input.dropWhile isSpace).takeWhile (fun c => !isSpace c),
   (input.dropWhile isSpace).dropWhile (fun c => !isSpace c))

/-- The test `text.find(pattern) == 0`: the text begins with the pattern. -/
def startsWith : List Char → List Char → Bool
  | [], _ => true
  | _ :: _, [] => false
  | p :: ps, c :: cs => decide (p = c) && startsWith ps cs

/-- Lines 82-88 and 108-114: the stream `oss` after the loop over the recommendations. -/
def ossText (recommendations : List String) : String :=
  recommendations.foldl (fun oss vid => oss ++ "\"" ++ vid ++ "\",") "["

/-- The assignment `response.back() = c` on a non-empty text. -/
def setBack (response : String) (c : Char) : String :=
  String.mk (response.data.dropLast ++ [c])

/-- Lines 78-95: the response of the WATCH branch for the recommendations returned. -/
def watchResponse (recommendations : List String) : String :=
  if !recommendations.isEmpty then
    setBack ("WATCH_UPDATED" ++ ", Recommendations: [" ++ ossText recommendations) ']'
  else "WATCH_UPDATED" ++ ", Recommendations: []"

/-- Lines 107-120: the response of the RECOMMEND_FOR_VIDEO branch for the recommendations
returned. -/
def recommendResponse (recommendations : List String) : String :=
  if !recommendations.isEmpty then setBack (ossText recommendations) ']' else "[]"

/-- Lines 66-129, the body of the receive loop: the response sent for one request text, and
the store afterwards.  The text is the `std::string` built from the receive buffer. -/
def handleRequest (s : Store) (request : String) : String × Store :=
  if startsWith "WATCH".data request.data then
    if (extract (extract request.data).2).1 ≠ [] ∧
        (extract (extract (extract request.data).2).2).1 ≠ [] then
      (watchResponse
          (generateRecommendations
            (updateWatchHistory s (String.mk (extract (extract request.data).2).1)
              (String.mk (extract (extract (extract request.data).2).2).1))
            (String.mk (extract (extract (extract request.data).2).2).1)).1,
        (generateRecommendations
          (updateWatchHistory s (String.mk (extract (extract request.data).2).1)
            (String.mk (extract (extract (extract request.data).2).2).1))
          (String.mk (extract (extract (extract request.data).2).2).1)).2)
    else ("ERROR: Invalid WATCH command format", s)
  else if startsWith "RECOMMEND_FOR_VIDEO".data request.data then
    if (extract (extract request.data).2).1 ≠ [] then
      (recommendResponse
          (generateRecommendations s (String.mk (extract (extract request.data).2).1)).1,
        (generateRecommendations s (String.mk (extract (extract request.data).2).1)).2)
    else ("ERROR: Invalid RECOMMEND_FOR_VIDEO command format", s)
  else ("ERROR: Unrecognized command", s)

/-- Lines 61-133: the receive loop over the request texts read from one connection; gives
the responses sent, in order, and the store afterwards. -/
def handleClient (s : Store) : List String → List String × Store
  | [] => ([], s)
  | request :: rest =>
    ((handleRequest s request).1 :: (handleClient (handleRequest s request).2 rest).1,
     (handleClient (handleRequest s request).2 rest).2)

/-- Text pieces joined by single commas. -/
def joinComma : List String → String
  | [] => ""
  | [a] => a
  | a :: b :: rest => a ++ "," ++ joinComma (b :: rest)

/-- The list rendering as the specification words it: each video ID wrapped in double
quotes, the IDs joined by single commas, the whole wrapped in `[` and `]`. -/
def listRendering (videoIds : List String) : String :=
  "[" ++ joinComma (videoIds.map (fun vid => "\"" ++ vid ++ "\"")) ++ "]"

/-- The command keyword of a request text: its first whitespace-delimited token. -/
def commandKeyword (request : String) : String := String.mk (extract request.data).1

/-- Two stores hold the same maps: the same users, the same members in each watch-set, and
the same entry, or none, for each video.  This is equality of the unordered containers,
which has no regard for iteration order. -/
def Store.Same (s t : Store) : Prop :=
  (∀ u, u ∈ s.userWatchHistory.map Prod.fst ↔ u ∈ t.userWatchHistory.map Prod.fst) ∧
  (∀ u w, w ∈ watchSet s u ↔ w ∈ watchSet t u) ∧
  (∀ v, mapFind v s.videoPopularity = mapFind v t.videoPopularity)

/-! ## Example stores -/

/-- A small reachable store: `u1` watched `A`, `B`, `C`; `u2` watched `A`, `C`; `u3` watched
`B`.  Every video has two views. -/
def demoStore : Store :=
  recordAll emptyStore
    [("u1", "A"), ("u1", "B"), ("u1", "C"), ("u2", "A"), ("u2", "C"), ("u3", "B")]

/-- A well-formed store in which the view count of `W` is `INT_MAX`. -/
def fullCountStore : Store :=
  Store.mk [("u", ["T", "W", "X"])] [("T", 1), ("W", 2147483647), ("X", 5)]

/-- A well-formed store in which two users co-watched `T` and `W`, and `W` has `2^30`
views. -/
def largeCountStore : Store :=
  Store.mk [("u1", ["T", "W"]), ("u2", ["T", "W"])] [("T", 2), ("W", 1073741824)]

/-! ## Machine integer lemmas -/

theorem wrapInt_of_range {z : Int} (h1 : INT_MIN ≤ z) (h2 : z ≤ INT_MAX) : wrapInt z = z := by
  unfold INT_MIN at h1
  unfold INT_MAX at h2
  unfold wrapInt
  omega

theorem wrapInt_range (z : Int) : INT_MIN ≤ wrapInt z ∧ wrapInt z ≤ INT_MAX := by
  unfold INT_MIN INT_MAX wrapInt
  omega

theorem wrapInt_add_left (a b : Int) : wrapInt (wrapInt a + b) = wrapInt (a + b) := by
  unfold wrapInt
  omega

theorem wrapInt_add_right (a b : Int) : wrapInt (a + wrapInt b) = wrapInt (a + b) := by
  unfold wrapInt
  omega

/-! ## Container lemmas -/

section Containers

variable {β : Type}

theorem mapFind_eq_none_iff (k : String) (m : StrMap β) :
    mapFind k m = none ↔ k ∉ m.map Prod.fst := by
  induction m with
  | nil => simp [mapFind]
  | cons p rest ih =>
    obtain ⟨k', b⟩ := p
    by_cases h : k' = k
    · simp [mapFind, h]
    · have h' : ¬ k = k' := fun e => h e.symm
      simp [mapFind, h, h', ih]

theorem mapFind_mem {k : String} {b : β} {m : StrMap β} (h : mapFind k m = some b) :
    (k, b) ∈ m := by
  induction m with
  | nil => simp [mapFind] at h
  | cons p rest ih =>
    obtain ⟨k', b'⟩ := p
    by_cases hk : k' = k
    · simp [mapFind, hk] at h
      simp [hk, h]
    · simp [mapFind, hk] at h
      exact List.mem_cons_of_mem _ (ih h)

theorem mapFind_of_mem {k : String} {b : β} {m : StrMap β} (hnd : (m.map Prod.fst).Nodup)
    (h : (k, b) ∈ m) : mapFind k m = some b := by
  induction m with
  | nil => simp at h
  | cons p rest ih =>
    obtain ⟨k', b'⟩ := p
    simp only [List.map_cons, List.nodup_cons] at hnd
    rcases List.mem_cons.1 h with e | h'
    · cases e
      simp [mapFind]
    · have hk : k' ≠ k := by
        intro e
        apply hnd.1
        rw [e]
        exact List.mem_map_of_mem Prod.fst h'
      simp [mapFind, hk, ih hnd.2 h']

theorem mapFind_mapModify_self (k : String) (d : β) (f : β → β) (m : StrMap β) :
    mapFind k (mapModify k d f m) = some (f ((mapFind k m).getD d)) := by
  induction m with
  | nil => simp [mapFind, mapModify]
  | cons p rest ih =>
    obtain ⟨k', b⟩ := p
    by_cases h : k' = k
    · simp [mapFind, mapModify, h]
    · simp [mapFind, mapModify, h, ih]

theorem mapFind_mapModify_ne {k k' : String} (h : k' ≠ k) (d : β) (f : β → β) (m : StrMap β) :
    mapFind k' (mapModify k d f m) = mapFind k' m := by
  induction m with
  | nil =>
    have h' : ¬ k = k' := fun e => h e.symm
    simp [mapFind, mapModify, h']
  | cons p rest ih =>
    obtain ⟨k1, b⟩ := p
    by_cases h1 : k1 = k
    · subst h1
      have h' : ¬ k1 = k' := fun e => h e.symm
      simp [mapFind, mapModify, h']
    · by_cases h2 : k1 = k'
      · subst h2
        simp [mapFind, mapModify, h]
      · simp [mapFind, mapModify, h1, h2, ih]

theorem mapModify_keys (k : String) (d : β) (f : β → β) (m : StrMap β) :
    (mapModify k d f m).map Prod.fst =
      if k ∈ m.map Prod.fst then m.map Prod.fst else m.map Prod.fst ++ [k] := by
  induction m with
  | nil => simp [mapModify]
  | cons p rest ih =>
    obtain ⟨k', b⟩ := p
    by_cases h : k' = k
    · simp [mapModify, h]
    · have h' : ¬ k = k' := fun e => h e.symm
      simp only [mapModify, h, if_false, List.map_cons, ih, List.mem_cons, h', false_or]
      split <;> simp

theorem mapModify_keys_nodup (k : String) (d : β) (f : β → β) {m : StrMap β}
    (h : (m.map Prod.fst).Nodup) : ((mapModify k d f m).map Prod.fst).Nodup := by
  rw [mapModify_keys]
  split
  · exact h
  · rename_i hk
    rw [List.nodup_append]
    refine ⟨h, List.nodup_singleton k, ?_⟩
    intro a ha hb
    rw [List.mem_singleton] at hb
    exact hk (hb ▸ ha)

theorem mem_mapModify {k : String} {d : β} {f : β → β} {m : StrMap β} {p : String × β}
    (h : p ∈ mapModify k d f m) :
    p ∈ m ∨ (p.1 = k ∧ p.2 = f ((mapFind k m).getD d)) := by
  induction m with
  | nil =>
    simp [mapModify] at h
    simp [h, mapFind]
  | cons q rest ih =>
    obtain ⟨k', b⟩ := q
    by_cases hk : k' = k
    · subst hk
      simp only [mapModify, if_true, List.mem_cons] at h
      rcases h with e | h
      · right
        simp [e, mapFind]
      · left
        exact List.mem_cons_of_mem _ h
    · simp only [mapModify, hk, if_false, List.mem_cons] at h
      rcases h with e | h
      · left
        simp [e]
      · rcases ih h with h1 | h2
        · left
          exact List.mem_cons_of_mem _ h1
        · right
          simpa [mapFind, hk] using h2

theorem setInsert_mem (v w : String) (l : List String) :
    w ∈ setInsert v l ↔ w = v ∨ w ∈ l := by
  unfold setInsert
  split
  · rename_i h
    constructor
    · exact fun hw => Or.inr hw
    · rintro (e | hw)
      · exact e ▸ h
      · exact hw
  · simp [or_comm]

theorem setInsert_nodup (v : String) {l : List String} (h : l.Nodup) :
    (setInsert v l).Nodup := by
  unfold setInsert
  split
  · exact h
  · rename_i hv
    rw [List.nodup_append]
    refine ⟨h, List.nodup_singleton v, ?_⟩
    intro a ha hb
    rw [List.mem_singleton] at hb
    exact hv (hb ▸ ha)

theorem setInsert_of_mem {v : String} {l : List String} (h : v ∈ l) : setInsert v l = l := by
  simp [setInsert, h]

theorem setInsert_idem (v : String) (l : List String) :
    setInsert v (setInsert v l) = setInsert v l :=
  setInsert_of_mem ((setInsert_mem v v l).2 (Or.inl rfl))

theorem setInsert_length (v : String) (l : List String) :
    (setInsert v l).length = l.length + (if v ∈ l then 0 else 1) := by
  unfold setInsert
  split <;> simp

theorem setInsert_count_self (v : String) {l : List String} (h : l.Nodup) :
    (setInsert v l).count v = 1 :=
  List.count_eq_one_of_mem (setInsert_nodup v h) ((setInsert_mem v v l).2 (Or.inl rfl))

end Containers

/-! ## The effect of `updateWatchHistory` -/

theorem watchSet_update_self (s : Store) (u v : String) :
    watchSet (updateWatchHistory s u v) u = setInsert v (watchSet s u) := by
  simp [watchSet, updateWatchHistory, mapFind_mapModify_self]

theorem watchSet_update_ne (s : Store) {u u' : String} (h : u' ≠ u) (v : String) :
    watchSet (updateWatchHistory s u v) u' = watchSet s u' := by
  simp [watchSet, updateWatchHistory, mapFind_mapModify_ne h]

theorem popularity_update_self (s : Store) (u v : String) :
    popularity (updateWatchHistory s u v) v = wrapInt (popularity s v + 1) := by
  simp [popularity, updateWatchHistory, mapFind_mapModify_self]

theorem popularity_update_ne (s : Store) (u : String) {v v' : String} (h : v' ≠ v) :
    popularity (updateWatchHistory s u v) v' = popularity s v' := by
  simp [popularity, updateWatchHistory, mapFind_mapModify_ne h]

theorem watchSet_nodup {s : Store} (h : s.WF) (u : String) : (watchSet s u).Nodup := by
  unfold watchSet
  cases hf : mapFind u s.userWatchHistory with
  | none => simp
  | some l => exact h.2.1 _ (mapFind_mem hf)

theorem popularity_range {s : Store} (h : s.WF) (v : String) :
    INT_MIN ≤ popularity s v ∧ popularity s v ≤ INT_MAX := by
  unfold popularity
  cases hf : mapFind v s.videoPopularity with
  | none => simp [INT_MIN, INT_MAX]
  | some c => exact h.2.2.2 _ (mapFind_mem hf)

theorem emptyStore_WF : emptyStore.WF := by decide

theorem updateWatchHistory_WF {s : Store} (h : s.WF) (u v : String) :
    (updateWatchHistory s u v).WF := by
  refine ⟨mapModify_keys_nodup _ _ _ h.1, ?_, mapModify_keys_nodup _ _ _ h.2.2.1, ?_⟩
  · intro p hp
    rcases mem_mapModify hp with h1 | h2
    · exact h.2.1 p h1
    · rw [h2.2]
      apply setInsert_nodup
      cases hf : mapFind u s.userWatchHistory with
      | none => simp
      | some l => exact h.2.1 _ (mapFind_mem hf)
  · intro p hp
    rcases mem_mapModify hp with h1 | h2
    · exact h.2.2.2 p h1
    · rw [h2.2]
      exact wrapInt_range _

theorem recordAll_WF {s : Store} (h : s.WF) (events : List (String × String)) :
    (recordAll s events).WF := by
  induction events generalizing s with
  | nil => exact h
  | cons e rest ih => exact ih (updateWatchHistory_WF h e.1 e.2)

theorem Reachable.WF {s : Store} (h : Reachable s) : s.WF := by
  obtain ⟨events, rfl⟩ := h
  exact recordAll_WF emptyStore_WF events

theorem watchSet_repeatWatch (n : Nat) (s : Store) (u v : String) :
    watchSet (repeatWatch (n + 1) s u v) u = setInsert v (watchSet s u) := by
  induction n generalizing s with
  | zero => exact watchSet_update_self s u v
  | succ n ih =>
    show watchSet (repeatWatch (n + 1) (updateWatchHistory s u v) u v) u = _
    rw [ih, watchSet_update_self, setInsert_idem]

theorem popularity_repeatWatch (n : Nat) (s : Store) (u v : String) :
    popularity (repeatWatch (n + 1) s u v) v = wrapInt (popularity s v + (n + 1 : Nat)) := by
  induction n generalizing s with
  | zero => simpa using popularity_update_self s u v
  | succ n ih =>
    show popularity (repeatWatch (n + 1) (updateWatchHistory s u v) u v) v = _
    rw [ih, popularity_update_self, wrapInt_add_left]
    congr 1
    push_cast
    ring

theorem popularity_recordAll (s : Store) (events : List (String × String)) (v : String) :
    wrapInt (popularity (recordAll s events) v) =
      wrapInt (popularity s v + (watchEvents events v : Nat)) := by
  induction events generalizing s with
  | nil => simp [recordAll, watchEvents]
  | cons e rest ih =>
    show wrapInt (popularity (recordAll (updateWatchHistory s e.1 e.2) rest) v) = _
    rw [ih]
    by_cases h : e.2 = v
    · subst h
      rw [popularity_update_self, wrapInt_add_left]
      simp only [watchEvents, List.countP_cons, decide_True, if_true]
      congr 1
      push_cast
      ring
    · have h' : v ≠ e.2 := fun x => h x.symm
      rw [popularity_update_ne s e.1 h']
      simp [watchEvents, List.countP_cons, h]

theorem popularity_recordAll_empty (events : List (String × String)) (v : String) :
    popularity (recordAll emptyStore events) v = wrapInt (watchEvents events v : Nat) := by
  have h := popularity_recordAll emptyStore events v
  have hr := popularity_range (recordAll_WF emptyStore_WF events) v
  rw [wrapInt_of_range hr.1 hr.2] at h
  rw [h]
  simp [popularity, emptyStore, mapFind]

theorem watchSet_recordAll (s : Store) (events : List (String × String)) (u w : String) :
    w ∈ watchSet (recordAll s events) u ↔ w ∈ watchSet s u ∨ (u, w) ∈ events := by
  induction events generalizing s with
  | nil => simp [recordAll]
  | cons e rest ih =>
    obtain ⟨eu, ev⟩ := e
    show w ∈ watchSet (recordAll (updateWatchHistory s eu ev) rest) u ↔ _
    rw [ih, List.mem_cons, Prod.mk.injEq]
    by_cases h : u = eu
    · subst h
      rw [watchSet_update_self, setInsert_mem]
      tauto
    · rw [watchSet_update_ne s h]
      tauto

theorem watchEvents_replicate (n : Nat) (u v : String) :
    watchEvents (List.replicate n (u, v)) v = n := by
  induction n with
  | zero => rfl
  | succ n ih =>
    unfold watchEvents at ih ⊢
    rw [List.replicate_succ, List.countP_cons, ih]
    simp

/-! ## The scoring loops -/

theorem mem_mapModify_keys {β : Type} (k k' : String) (d : β) (f : β → β) (m : StrMap β) :
    k' ∈ (mapModify k d f m).map Prod.fst ↔ k' ∈ m.map Prod.fst ∨ k' = k := by
  rw [mapModify_keys]
  split
  · rename_i h
    constructor
    · exact fun h1 => Or.inl h1
    · rintro (h1 | h1)
      · exact h1
      · exact h1 ▸ h
  · simp

theorem mapFind_append {β : Type} (k : String) (m m' : StrMap β) :
    mapFind k (m ++ m') = (mapFind k m).orElse (fun _ => mapFind k m') := by
  induction m with
  | nil => simp [mapFind]
  | cons p rest ih =>
    obtain ⟨k', b⟩ := p
    by_cases h : k' = k
    · simp [mapFind, h]
    · simp [mapFind, h, ih]

theorem mapIndex_fst {β : Type} (k : String) (d : β) (m : StrMap β) :
    (mapIndex k d m).1 = (mapFind k m).getD d := by
  unfold mapIndex
  cases mapFind k m <;> rfl

theorem mapIndex_snd_of_mem {β : Type} {k : String} (d : β) {m : StrMap β}
    (h : k ∈ m.map Prod.fst) : (mapIndex k d m).2 = m := by
  unfold mapIndex
  cases hf : mapFind k m with
  | none => exact absurd h ((mapFind_eq_none_iff k m).1 hf)
  | some b => rfl

theorem mapIndex_snd_getD {β : Type} (k k' : String) (d : β) (m : StrMap β) :
    (mapFind k' (mapIndex k d m).2).getD d = (mapFind k' m).getD d := by
  unfold mapIndex
  cases hf : mapFind k m with
  | some b => rfl
  | none =>
    show (mapFind k' (m ++ [(k, d)])).getD d = _
    rw [mapFind_append]
    cases hf' : mapFind k' m with
    | some b => rfl
    | none =>
      by_cases h : k = k'
      · simp [mapFind, h]
      · simp [mapFind, h]

theorem scoreVideos_pop (T : String) (vs : List String) (sc pop : StrMap Int) (w : String) :
    (mapFind w (scoreVideos T vs (sc, pop)).2).getD 0 = (mapFind w pop).getD 0 := by
  induction vs generalizing sc pop with
  | nil => rfl
  | cons v rest ih =>
    by_cases h : v = T
    · simp only [scoreVideos, h, ne_eq, not_true_eq_false, if_false]
      exact ih sc pop
    · simp only [scoreVideos, h, ne_eq, not_false_eq_true, if_true]
      rw [ih, mapIndex_snd_getD]

theorem scoreVideos_keys (T : String) (vs : List String) (sc pop : StrMap Int) (W : String) :
    W ∈ (scoreVideos T vs (sc, pop)).1.map Prod.fst ↔
      W ∈ sc.map Prod.fst ∨ (W ∈ vs ∧ W ≠ T) := by
  induction vs generalizing sc pop with
  | nil => simp [scoreVideos]
  | cons v rest ih =>
    by_cases h : v = T
    · simp only [scoreVideos, h, ne_eq, not_true_eq_false, if_false]
      rw [ih, List.mem_cons]
      constructor
      · rintro (h1 | h1)
        · exact Or.inl h1
        · exact Or.inr ⟨Or.inr h1.1, h1.2⟩
      · rintro (h1 | ⟨h1 | h1, h2⟩)
        · exact Or.inl h1
        · exact absurd h1 h2
        · exact Or.inr ⟨h1, h2⟩
    · simp only [scoreVideos, h, ne_eq, not_false_eq_true, if_true]
      rw [ih, mem_mapModify_keys, List.mem_cons]
      constructor
      · rintro ((h1 | h1) | h1)
        · exact Or.inl h1
        · exact Or.inr ⟨Or.inl h1, h1 ▸ h⟩
        · exact Or.inr ⟨Or.inr h1.1, h1.2⟩
      · rintro (h1 | ⟨h1 | h1, h2⟩)
        · exact Or.inl (Or.inl h1)
        · exact Or.inl (Or.inr h1)
        · exact Or.inr ⟨h1, h2⟩

theorem scoreVideos_keys_nodup (T : String) (vs : List String) {sc : StrMap Int}
    (pop : StrMap Int) (h : (sc.map Prod.fst).Nodup) :
    ((scoreVideos T vs (sc, pop)).1.map Prod.fst).Nodup := by
  induction vs generalizing sc pop with
  | nil => exact h
  | cons v rest ih =>
    by_cases hv : v = T
    · simp only [scoreVideos, hv, ne_eq, not_true_eq_false, if_false]
      exact ih pop h
    · simp only [scoreVideos, hv, ne_eq, not_false_eq_true, if_true]
      exact ih _ (mapModify_keys_nodup _ _ _ h)

theorem scoreVideos_range (T : String) (vs : List String) {sc : StrMap Int}
    (pop : StrMap Int) (h : ∀ p ∈ sc, INT_MIN ≤ p.2 ∧ p.2 ≤ INT_MAX) :
    ∀ p ∈ (scoreVideos T vs (sc, pop)).1, INT_MIN ≤ p.2 ∧ p.2 ≤ INT_MAX := by
  induction vs generalizing sc pop with
  | nil => exact h
  | cons v rest ih =>
    by_cases hv : v = T
    · simp only [scoreVideos, hv, ne_eq, not_true_eq_false, if_false]
      exact ih pop h
    · simp only [scoreVideos, hv, ne_eq, not_false_eq_true, if_true]
      apply ih
      intro p hp
      rcases mem_mapModify hp with h1 | h2
      · exact h p h1
      · rw [h2.2]
        exact wrapInt_range _

theorem scoreVideos_val (T : String) (vs : List String) (sc pop : StrMap Int) {W : String}
    (hW : W ≠ T) :
    wrapInt ((mapFind W (scoreVideos T vs (sc, pop)).1).getD 0) =
      wrapInt ((mapFind W sc).getD 0 + (vs.count W : Int) * (mapFind W pop).getD 0) := by
  induction vs generalizing sc pop with
  | nil => simp [scoreVideos]
  | cons v rest ih =>
    by_cases h : v = T
    · subst h
      simp only [scoreVideos, ne_eq, not_true_eq_false, if_false]
      rw [ih, List.count_cons_of_ne hW]
    · simp only [scoreVideos, h, ne_eq, not_false_eq_true, if_true]
      rw [ih, mapIndex_snd_getD]
      by_cases hv : v = W
      · subst hv
        rw [mapFind_mapModify_self, mapIndex_fst, List.count_cons_self, Option.getD_some,
          ← wrapInt_add_left, wrapInt_add_left, wrapInt_add_left]
        congr 1
        push_cast
        ring
      · have hv' : W ≠ v := fun e => hv e.symm
        rw [mapFind_mapModify_ne hv', List.count_cons_of_ne hv']

theorem scoreUsers_pop (T : String) (users : StrMap (List String))
    (acc : StrMap Int × StrMap Int) (w : String) :
    (mapFind w (scoreUsers T users acc).2).getD 0 = (mapFind w acc.2).getD 0 := by
  induction users generalizing acc with
  | nil => rfl
  | cons p rest ih =>
    obtain ⟨u, vs⟩ := p
    obtain ⟨sc, pop⟩ := acc
    by_cases h : T ∈ vs
    · simp only [scoreUsers, h, if_true]
      rw [ih, scoreVideos_pop]
    · simp only [scoreUsers, h, if_false]
      exact ih _

theorem scoreUsers_keys (T : String) (users : StrMap (List String))
    (acc : StrMap Int × StrMap Int) (W : String) :
    W ∈ (scoreUsers T users acc).1.map Prod.fst ↔
      W ∈ acc.1.map Prod.fst ∨ ∃ p ∈ users, T ∈ p.2 ∧ W ∈ p.2 ∧ W ≠ T := by
  induction users generalizing acc with
  | nil => simp [scoreUsers]
  | cons p rest ih =>
    obtain ⟨u, vs⟩ := p
    obtain ⟨sc, pop⟩ := acc
    by_cases h : T ∈ vs
    · simp only [scoreUsers, h, if_true]
      rw [ih, scoreVideos_keys]
      constructor
      · rintro ((h1 | h1) | ⟨q, hq, h1⟩)
        · exact Or.inl h1
        · exact Or.inr ⟨(u, vs), List.mem_cons_self _ _, h, h1.1, h1.2⟩
        · exact Or.inr ⟨q, List.mem_cons_of_mem _ hq, h1⟩
      · rintro (h1 | ⟨q, hq, h1⟩)
        · exact Or.inl (Or.inl h1)
        · rcases List.mem_cons.1 hq with e | hq
          · subst e
            exact Or.inl (Or.inr ⟨h1.2.1, h1.2.2⟩)
          · exact Or.inr ⟨q, hq, h1⟩
    · simp only [scoreUsers, h, if_false]
      rw [ih]
      constructor
      · rintro (h1 | ⟨q, hq, h1⟩)
        · exact Or.inl h1
        · exact Or.inr ⟨q, List.mem_cons_of_mem _ hq, h1⟩
      · rintro (h1 | ⟨q, hq, h1⟩)
        · exact Or.inl h1
        · rcases List.mem_cons.1 hq with e | hq
          · subst e
            exact absurd h1.1 h
          · exact Or.inr ⟨q, hq, h1⟩

theorem scoreUsers_keys_nodup (T : String) (users : StrMap (List String))
    {acc : StrMap Int × StrMap Int} (h : (acc.1.map Prod.fst).Nodup) :
    ((scoreUsers T users acc).1.map Prod.fst).Nodup := by
  induction users generalizing acc with
  | nil => exact h
  | cons p rest ih =>
    obtain ⟨u, vs⟩ := p
    obtain ⟨sc, pop⟩ := acc
    by_cases hT : T ∈ vs
    · simp only [scoreUsers, hT, if_true]
      exact ih (scoreVideos_keys_nodup T vs pop h)
    · simp only [scoreUsers, hT, if_false]
      exact ih h

theorem scoreUsers_range (T : String) (users : StrMap (List String))
    {acc : StrMap Int × StrMap Int} (h : ∀ p ∈ acc.1, INT_MIN ≤ p.2 ∧ p.2 ≤ INT_MAX) :
    ∀ p ∈ (scoreUsers T users acc).1, INT_MIN ≤ p.2 ∧ p.2 ≤ INT_MAX := by
  induction users generalizing acc with
  | nil => exact h
  | cons p rest ih =>
    obtain ⟨u, vs⟩ := p
    obtain ⟨sc, pop⟩ := acc
    by_cases hT : T ∈ vs
    · simp only [scoreUsers, hT, if_true]
      exact ih (scoreVideos_range T vs pop h)
    · simp only [scoreUsers, hT, if_false]
      exact ih h

theorem scoreUsers_val (T : String) (users : StrMap (List String))
    (acc : StrMap Int × StrMap Int) {W : String} (hW : W ≠ T) :
    wrapInt ((mapFind W (scoreUsers T users acc).1).getD 0) =
      wrapInt ((mapFind W acc.1).getD 0 +
        (coWatchOccurrences T W users : Int) * (mapFind W acc.2).getD 0) := by
  induction users generalizing acc with
  | nil => simp [scoreUsers, coWatchOccurrences]
  | cons p rest ih =>
    obtain ⟨u, vs⟩ := p
    obtain ⟨sc, pop⟩ := acc
    by_cases h : T ∈ vs
    · simp only [scoreUsers, coWatchOccurrences, h, if_true]
      rw [ih, scoreVideos_pop, ← wrapInt_add_left, scoreVideos_val T vs sc pop hW,
        wrapInt_add_left]
      congr 1
      push_cast
      ring
    · simp only [scoreUsers, coWatchOccurrences, h, if_false]
      rw [ih]
      simp

theorem coWatchOccurrences_eq_length (T W : String) {users : StrMap (List String)}
    (h : ∀ p ∈ users, p.2.Nodup) :
    coWatchOccurrences T W users =
      (users.filter (fun p => decide (T ∈ p.2) && decide (W ∈ p.2))).length := by
  induction users with
  | nil => rfl
  | cons p rest ih =>
    obtain ⟨u, vs⟩ := p
    have hvs : vs.Nodup := h (u, vs) (List.mem_cons_self _ _)
    have ih' := ih (fun q hq => h q (List.mem_cons_of_mem _ hq))
    by_cases hT : T ∈ vs
    · by_cases hWm : W ∈ vs
      · simp [coWatchOccurrences, hT, hWm, ih', List.count_eq_one_of_mem hvs hWm]
        omega
      · simp [coWatchOccurrences, hT, hWm, ih', List.count_eq_zero_of_not_mem hWm]
    · simp [coWatchOccurrences, hT, ih']

/-! ## The score map and the ranking -/

theorem recommendationScores_keys_nodup (s : Store) (T : String) :
    ((recommendationScores s T).1.map Prod.fst).Nodup :=
  scoreUsers_keys_nodup T s.userWatchHistory (List.nodup_nil)

theorem recommendationScores_range (s : Store) (T : String) :
    ∀ p ∈ (recommendationScores s T).1, INT_MIN ≤ p.2 ∧ p.2 ≤ INT_MAX :=
  scoreUsers_range T s.userWatchHistory (fun _ h => absurd h (List.not_mem_nil _))

theorem recommendationScores_keys (s : Store) (T W : String) :
    W ∈ (recommendationScores s T).1.map Prod.fst ↔
      ∃ p ∈ s.userWatchHistory, T ∈ p.2 ∧ W ∈ p.2 ∧ W ≠ T := by
  unfold recommendationScores
  rw [scoreUsers_keys]
  simp

theorem mem_candidates (s : Store) (T W : String) :
    W ∈ candidates s T ↔ ∃ p ∈ s.userWatchHistory, T ∈ p.2 ∧ W ∈ p.2 ∧ W ≠ T := by
  unfold candidates
  rw [List.mem_dedup, List.mem_filter, List.mem_flatMap]
  constructor
  · rintro ⟨⟨p, hp, hW⟩, hne⟩
    rw [List.mem_filter] at hp
    exact ⟨p, hp.1, by simpa using hp.2, hW, by simpa using hne⟩
  · rintro ⟨p, hp, hT, hW, hne⟩
    exact ⟨⟨p, List.mem_filter.2 ⟨hp, by simpa using hT⟩, hW⟩, by simpa using hne⟩

theorem recommendationScores_keys_candidates (s : Store) (T W : String) :
    W ∈ (recommendationScores s T).1.map Prod.fst ↔ W ∈ candidates s T := by
  rw [recommendationScores_keys, mem_candidates]

theorem recommendationScores_length (s : Store) (T : String) :
    (recommendationScores s T).1.length = (candidates s T).length := by
  have hperm : ((recommendationScores s T).1.map Prod.fst).Perm (candidates s T) :=
    (List.perm_ext_iff_of_nodup (recommendationScores_keys_nodup s T)
      (List.nodup_dedup _)).2 (fun W => recommendationScores_keys_candidates s T W)
  rw [← hperm.length_eq, List.length_map]

theorem scoreOf_of_mem {s : Store} {T : String} {p : String × Int}
    (h : p ∈ (recommendationScores s T).1) : scoreOf s T p.1 = p.2 := by
  unfold scoreOf
  rw [mapFind_of_mem (recommendationScores_keys_nodup s T) (show (p.1, p.2) ∈ _ from h)]
  rfl

theorem scoredRecommendations_perm (s : Store) (T : String) :
    (scoredRecommendations s T).Perm (recommendationScores s T).1 :=
  List.perm_insertionSort _ _

theorem scoredRecommendations_sorted (s : Store) (T : String) :
    (scoredRecommendations s T).Pairwise (fun a b => b.2 ≤ a.2) := by
  haveI : IsTotal (String × Int) (fun a b => scoreGreater b a = false) :=
    ⟨fun a b => by
      simp only [scoreGreater, decide_eq_false_iff_not, gt_iff_lt, not_lt]
      exact le_total b.2 a.2⟩
  haveI : IsTrans (String × Int) (fun a b => scoreGreater b a = false) :=
    ⟨fun a b c => by
      simp only [scoreGreater, decide_eq_false_iff_not, gt_iff_lt, not_lt]
      exact fun h1 h2 => le_trans h2 h1⟩
  have h := List.sorted_insertionSort (fun a b : String × Int => scoreGreater b a = false)
    (recommendationScores s T).1
  refine List.Pairwise.imp ?_ h
  intro a b hab
  simpa [scoreGreater] using hab

theorem scoredRecommendations_scoreOf {s : Store} {T : String} {p : String × Int}
    (h : p ∈ scoredRecommendations s T) : scoreOf s T p.1 = p.2 :=
  scoreOf_of_mem ((scoredRecommendations_perm s T).mem_iff.1 h)

theorem scoredRecommendations_keys (s : Store) (T W : String) :
    W ∈ (scoredRecommendations s T).map Prod.fst ↔ W ∈ candidates s T := by
  rw [← recommendationScores_keys_candidates,
    ((scoredRecommendations_perm s T).map Prod.fst).mem_iff]

theorem scoredRecommendations_keys_nodup (s : Store) (T : String) :
    ((scoredRecommendations s T).map Prod.fst).Nodup :=
  ((scoredRecommendations_perm s T).map Prod.fst).nodup_iff.2
    (recommendationScores_keys_nodup s T)

theorem take_min_length {α : Type} (l : List α) (n : Nat) :
    l.take (min l.length n) = l.take n := by
  rcases Nat.le_total l.length n with h | h
  · rw [Nat.min_eq_left h, List.take_of_length_le h, List.take_of_length_le (le_refl _)]
  · rw [Nat.min_eq_right h]

theorem generateRecommendations_fst (s : Store) (T : String) :
    (generateRecommendations s T).1 = ((scoredRecommendations s T).take 10).map Prod.fst := by
  unfold generateRecommendations
  rw [take_min_length]

theorem generateRecommendations_mem_candidates {s : Store} {T x : String}
    (h : x ∈ (generateRecommendations s T).1) : x ∈ candidates s T := by
  rw [generateRecommendations_fst] at h
  rw [← scoredRecommendations_keys]
  obtain ⟨p, hp, rfl⟩ := List.mem_map.1 h
  exact List.mem_map_of_mem _ (List.mem_of_mem_take hp)

theorem mapFind_isSome_iff {β : Type} (k : String) (m : StrMap β) :
    (mapFind k m).isSome ↔ k ∈ m.map Prod.fst := by
  rw [← not_iff_not, ← mapFind_eq_none_iff]
  cases mapFind k m <;> simp

theorem scoreOf_range (s : Store) (T W : String) :
    INT_MIN ≤ scoreOf s T W ∧ scoreOf s T W ≤ INT_MAX := by
  unfold scoreOf
  cases hf : mapFind W (recommendationScores s T).1 with
  | none => simp [INT_MIN, INT_MAX]
  | some c => exact recommendationScores_range s T _ (mapFind_mem hf)

theorem coWatchers_length (s : Store) (T W : String) :
    (coWatchers s T W).length =
      (s.userWatchHistory.filter (fun p => decide (T ∈ p.2) && decide (W ∈ p.2))).length := by
  unfold coWatchers
  rw [List.length_map]

theorem coWatchers_pos_iff (s : Store) (T W : String) :
    1 ≤ (coWatchers s T W).length ↔ ∃ p ∈ s.userWatchHistory, T ∈ p.2 ∧ W ∈ p.2 := by
  rw [coWatchers_length, Nat.succ_le_iff, List.length_pos_iff_exists_mem]
  constructor
  · rintro ⟨p, hp⟩
    rw [List.mem_filter] at hp
    exact ⟨p, hp.1, by simpa using hp.2⟩
  · rintro ⟨p, hp, h⟩
    exact ⟨p, List.mem_filter.2 ⟨hp, by simpa using h⟩⟩

/-- The score of a video other than the target is the product of its co-watcher count and
its view count, reduced to an `int`. -/
theorem scoreOf_eq_wrapInt {s : Store} (hwf : s.WF) (T : String) {W : String} (hW : W ≠ T) :
    scoreOf s T W = wrapInt (((coWatchers s T W).length : Int) * popularity s W) := by
  have h := scoreUsers_val T s.userWatchHistory ([], s.videoPopularity) hW
  have hr := scoreOf_range s T W
  rw [coWatchers_length, ← coWatchOccurrences_eq_length T W hwf.2.1]
  rw [← wrapInt_of_range hr.1 hr.2]
  unfold scoreOf recommendationScores popularity
  rw [h]
  simp [mapFind]

theorem ranking_sorted (s : Store) (T : String) :
    (ranking s T).Pairwise (fun a b => scoreOf s T b ≤ scoreOf s T a) := by
  unfold ranking
  rw [List.pairwise_map]
  refine List.Pairwise.imp_of_mem ?_ (scoredRecommendations_sorted s T)
  intro a b ha hb hab
  rw [scoredRecommendations_scoreOf ha, scoredRecommendations_scoreOf hb]
  exact hab

theorem mem_ranking (s : Store) (T W : String) : W ∈ ranking s T ↔ W ∈ candidates s T :=
  scoredRecommendations_keys s T W

theorem pairwise_of_indexOf_lt {α : Type} [DecidableEq α] {R : α → α → Prop} {l : List α}
    (h : l.Pairwise R) {x y : α} (hy : y ∈ l) (hlt : l.indexOf x < l.indexOf y) : R x y := by
  have hyl : l.indexOf y < l.length := List.indexOf_lt_length.2 hy
  have hxl : l.indexOf x < l.length := lt_trans hlt hyl
  have hR := List.pairwise_iff_getElem.1 h (l.indexOf x) (l.indexOf y) hxl hyl hlt
  rwa [List.getElem_indexOf, List.getElem_indexOf] at hR

theorem repeatWatch_WF {s : Store} (h : s.WF) (n : Nat) (u v : String) :
    (repeatWatch n s u v).WF := by
  induction n generalizing s with
  | zero => exact h
  | succ n ih => exact ih (updateWatchHistory_WF h u v)

theorem popularity_repeatWatch_ne (n : Nat) (s : Store) (u : String) {v v' : String}
    (h : v' ≠ v) : popularity (repeatWatch n s u v) v' = popularity s v' := by
  induction n generalizing s with
  | zero => rfl
  | succ n ih =>
    show popularity (repeatWatch n (updateWatchHistory s u v) u v) v' = _
    rw [ih, popularity_update_ne s u h]

theorem coWatchers_nodup {s : Store} (h : s.WF) (T W : String) : (coWatchers s T W).Nodup :=
  List.Nodup.sublist ((List.filter_sublist _).map Prod.fst) h.1

theorem coWatchers_length_congr {s s' : Store} (h : s.WF) (h' : s'.WF) (T W : String)
    (hmem : ∀ x, x ∈ coWatchers s' T W ↔ x ∈ coWatchers s T W) :
    (coWatchers s' T W).length = (coWatchers s T W).length :=
  ((List.perm_ext_iff_of_nodup (coWatchers_nodup h' T W) (coWatchers_nodup h T W)).2
    hmem).length_eq

theorem mem_candidates_iff_coWatchers (s : Store) (T W : String) :
    W ∈ candidates s T ↔ 1 ≤ (coWatchers s T W).length ∧ W ≠ T := by
  rw [mem_candidates, coWatchers_pos_iff]
  constructor
  · rintro ⟨p, hp, h1, h2, h3⟩
    exact ⟨⟨p, hp, h1, h2⟩, h3⟩
  · rintro ⟨⟨p, hp, h1, h2⟩, h3⟩
    exact ⟨p, hp, h1, h2, h3⟩

/-! ## The popularity map during a recommendation scan -/

theorem scoreVideos_snd_eq (T : String) (vs : List String) (sc pop : StrMap Int)
    (h : ∀ w ∈ vs, w ∈ pop.map Prod.fst) : (scoreVideos T vs (sc, pop)).2 = pop := by
  induction vs generalizing sc with
  | nil => rfl
  | cons v rest ih =>
    have hrest : ∀ w ∈ rest, w ∈ pop.map Prod.fst := fun w hw => h w (List.mem_cons_of_mem _ hw)
    by_cases hv : v = T
    · simp only [scoreVideos, hv, ne_eq, not_true_eq_false, if_false]
      exact ih sc hrest
    · simp only [scoreVideos, hv, ne_eq, not_false_eq_true, if_true]
      rw [mapIndex_snd_of_mem 0 (h v (List.mem_cons_self _ _))]
      exact ih _ hrest

theorem scoreUsers_snd_eq (T : String) (users : StrMap (List String))
    (acc : StrMap Int × StrMap Int)
    (h : ∀ p ∈ users, ∀ w ∈ p.2, w ∈ acc.2.map Prod.fst) :
    (scoreUsers T users acc).2 = acc.2 := by
  induction users generalizing acc with
  | nil => rfl
  | cons p rest ih =>
    obtain ⟨u, vs⟩ := p
    obtain ⟨sc, pop⟩ := acc
    have hvs := h (u, vs) (List.mem_cons_self _ _)
    have hrest : ∀ q ∈ rest, ∀ w ∈ q.2, w ∈ pop.map Prod.fst :=
      fun q hq => h q (List.mem_cons_of_mem _ hq)
    by_cases hT : T ∈ vs
    · simp only [scoreUsers, hT, if_true]
      have hsnd := scoreVideos_snd_eq T vs sc pop hvs
      rw [ih, hsnd]
      rw [hsnd]
      exact hrest
    · simp only [scoreUsers, hT, if_false]
      exact ih (sc, pop) hrest

theorem updateWatchHistory_counted {s : Store}
    (h : ∀ p ∈ s.userWatchHistory, ∀ w ∈ p.2, w ∈ s.videoPopularity.map Prod.fst)
    (u v : String) :
    ∀ p ∈ (updateWatchHistory s u v).userWatchHistory, ∀ w ∈ p.2,
      w ∈ (updateWatchHistory s u v).videoPopularity.map Prod.fst := by
  intro p hp w hw
  show w ∈ (mapModify v 0 (fun c => wrapInt (c + 1)) s.videoPopularity).map Prod.fst
  rw [mem_mapModify_keys]
  rcases mem_mapModify hp with h1 | h2
  · exact Or.inl (h p h1 w hw)
  · rw [h2.2, setInsert_mem] at hw
    rcases hw with e | hw
    · exact Or.inr e
    · cases hf : mapFind u s.userWatchHistory with
      | none => simp [hf] at hw
      | some l =>
        rw [hf] at hw
        exact Or.inl (h _ (mapFind_mem hf) w hw)

theorem recordAll_counted {s : Store}
    (h : ∀ p ∈ s.userWatchHistory, ∀ w ∈ p.2, w ∈ s.videoPopularity.map Prod.fst)
    (events : List (String × String)) :
    ∀ p ∈ (recordAll s events).userWatchHistory, ∀ w ∈ p.2,
      w ∈ (recordAll s events).videoPopularity.map Prod.fst := by
  induction events generalizing s with
  | nil => exact h
  | cons e rest ih => exact ih (updateWatchHistory_counted h e.1 e.2)

/-! ## Claims about `updateWatchHistory` -/

/-- C1, as amended: for every well-formed store, user `U`, video `V` and `n ≥ 1`: after `n`
calls `updateWatchHistory(U, V)` in a row the video `V` occurs exactly once in the watch-set
of `U`, the size of that set grew by 1 if `V` was absent before and by 0 if it was present,
and the view count of `V` is the old count plus `n` reduced to an `int`; it is exactly `n`
greater than before whenever the old count plus `n` does not exceed `INT_MAX`. -/
theorem updateWatchHistory_repeat (s : Store) (hwf : s.WF) (U V : String) (n : Nat)
    (hn : 1 ≤ n) :
    (watchSet (repeatWatch n s U V) U).count V = 1 ∧
    (watchSet (repeatWatch n s U V) U).length =
      (watchSet s U).length + (if V ∈ watchSet s U then 0 else 1) ∧
    popularity (repeatWatch n s U V) V = wrapInt (popularity s V + (n : Int)) ∧
    (popularity s V + (n : Int) ≤ INT_MAX →
      popularity (repeatWatch n s U V) V = popularity s V + (n : Int)) := by
  obtain ⟨m, rfl⟩ : ∃ m, n = m + 1 := ⟨n - 1, by omega⟩
  rw [watchSet_repeatWatch, popularity_repeatWatch]
  refine ⟨setInsert_count_self V (watchSet_nodup hwf U), setInsert_length V _, rfl, ?_⟩
  intro hb
  have hr := popularity_range hwf V
  apply wrapInt_of_range _ hb
  have h0 : (0 : Int) ≤ ((m + 1 : Nat) : Int) := Int.ofNat_nonneg _
  omega

/-- Witness for C1: three calls `updateWatchHistory("u1", "A")` on `demoStore`, where `u1`
already watched `A`; the view count of `A` goes from 2 to 5. -/
theorem updateWatchHistory_repeat_witness :
    demoStore.WF ∧ 1 ≤ 3 ∧ popularity demoStore "A" + ((3 : Nat) : Int) ≤ INT_MAX ∧
    (watchSet (repeatWatch 3 demoStore "u1" "A") "u1").count "A" = 1 ∧
    (watchSet (repeatWatch 3 demoStore "u1" "A") "u1").length =
      (watchSet demoStore "u1").length + 0 ∧
    popularity (repeatWatch 3 demoStore "u1" "A") "A" = 2 + 3 :=
  ⟨by decide, by decide, by decide,
    (updateWatchHistory_repeat demoStore (by decide) "u1" "A" 3 (by decide)).1,
    (updateWatchHistory_repeat demoStore (by decide) "u1" "A" 3 (by decide)).2.1,
    (updateWatchHistory_repeat demoStore (by decide) "u1" "A" 3 (by decide)).2.2.2
      (by decide)⟩

/-- C1 as stated fails: in `fullCountStore`, where the view count of `W` is `INT_MAX`, one
call `updateWatchHistory("u", "W")` leaves a view count that is not one greater than
before. -/
theorem updateWatchHistory_repeat_overflow :
    fullCountStore.WF ∧
    popularity (repeatWatch 1 fullCountStore "u" "W") "W" ≠
      popularity fullCountStore "W" + ((1 : Nat) : Int) := by
  decide

/-- C2, as amended: starting from the empty store, after any finite sequence of
`updateWatchHistory` calls, for every user `U` the watch-set of `U` holds exactly the videos
that appear with `U` in the sequence, each once; and for every video `V` the view count of
`V` is the number of calls whose video argument is `V` reduced to an `int`, which is that
number itself whenever it does not exceed `INT_MAX`. -/
theorem recordAll_counts (events : List (String × String)) :
    (∀ U w, w ∈ watchSet (recordAll emptyStore events) U ↔ (U, w) ∈ events) ∧
    (∀ U, (watchSet (recordAll emptyStore events) U).Nodup) ∧
    ∀ V, popularity (recordAll emptyStore events) V = wrapInt (watchEvents events V : Int) ∧
      ((watchEvents events V : Int) ≤ INT_MAX →
        popularity (recordAll emptyStore events) V = (watchEvents events V : Int)) := by
  refine ⟨?_, ?_, ?_⟩
  · intro U w
    rw [watchSet_recordAll]
    simp [watchSet, emptyStore, mapFind]
  · intro U
    exact watchSet_nodup (recordAll_WF emptyStore_WF events) U
  · intro V
    refine ⟨popularity_recordAll_empty events V, ?_⟩
    intro hb
    rw [popularity_recordAll_empty]
    apply wrapInt_of_range _ hb
    have h0 : (0 : Int) ≤ (watchEvents events V : Int) := Int.ofNat_nonneg _
    unfold INT_MIN
    omega

/-- Witness for C2: after `(u1, A), (u2, A), (u1, A)` the view count of `A` is 3 and the
watch-set of `u1` is `A` alone. -/
theorem recordAll_counts_witness :
    ((watchEvents [("u1", "A"), ("u2", "A"), ("u1", "A")] "A" : Nat) : Int) ≤ INT_MAX ∧
    popularity (recordAll emptyStore [("u1", "A"), ("u2", "A"), ("u1", "A")]) "A" = 3 ∧
    watchSet (recordAll emptyStore [("u1", "A"), ("u2", "A"), ("u1", "A")]) "u1" = ["A"] ∧
    (∀ w, w ∈ watchSet (recordAll emptyStore [("u1", "A"), ("u2", "A"), ("u1", "A")]) "u1" ↔
      ("u1", w) ∈ [("u1", "A"), ("u2", "A"), ("u1", "A")]) :=
  ⟨by decide,
    ((recordAll_counts [("u1", "A"), ("u2", "A"), ("u1", "A")]).2.2 "A").2 (by decide),
    by decide,
    (recordAll_counts [("u1", "A"), ("u2", "A"), ("u1", "A")]).1 "u1"⟩

/-- C2 as stated fails: after 2147483648 calls `updateWatchHistory("u", "v")` on the empty
store the view count of `"v"` differs from the number of calls for `"v"`. -/
theorem recordAll_counts_overflow :
    popularity (recordAll emptyStore (List.replicate 2147483648 ("u", "v"))) "v" ≠
      ((watchEvents (List.replicate 2147483648 ("u", "v")) "v" : Nat) : Int) := by
  rw [popularity_recordAll_empty, watchEvents_replicate]
  decide

/-! ## Claims about `generateRecommendations` -/

/-- C3, as amended: for every well-formed store, target video `T` and video `W ≠ T`, with
`k` the number of users whose watch-set contains both `T` and `W`: `W` gets a score entry
if and only if `k ≥ 1`; the score that `generateRecommendations(T)` accumulates for `W` is
`k * popularity[W]` reduced to an `int`, and it equals `k * popularity[W]` whenever that
product lies between `INT_MIN` and `INT_MAX`. -/
theorem recommendationScores_entry (s : Store) (hwf : s.WF) (T W : String) (hW : W ≠ T) :
    ((mapFind W (recommendationScores s T).1).isSome ↔ 1 ≤ (coWatchers s T W).length) ∧
    scoreOf s T W = wrapInt (((coWatchers s T W).length : Int) * popularity s W) ∧
    (INT_MIN ≤ ((coWatchers s T W).length : Int) * popularity s W →
      ((coWatchers s T W).length : Int) * popularity s W ≤ INT_MAX →
      scoreOf s T W = ((coWatchers s T W).length : Int) * popularity s W) := by
  refine ⟨?_, scoreOf_eq_wrapInt hwf T hW, ?_⟩
  · rw [mapFind_isSome_iff, recommendationScores_keys, coWatchers_pos_iff]
    constructor
    · rintro ⟨p, hp, h1, h2, _⟩
      exact ⟨p, hp, h1, h2⟩
    · rintro ⟨p, hp, h1, h2⟩
      exact ⟨p, hp, h1, h2, hW⟩
  · intro hlo hhi
    rw [scoreOf_eq_wrapInt hwf T hW]
    exact wrapInt_of_range hlo hhi

/-- Witness for C3: in `demoStore` two users watched both `A` and `C`, and `C` has two
views, so the score of `C` for the target `A` is 4. -/
theorem recommendationScores_entry_witness :
    demoStore.WF ∧ "C" ≠ "A" ∧
    INT_MIN ≤ ((coWatchers demoStore "A" "C").length : Int) * popularity demoStore "C" ∧
    ((coWatchers demoStore "A" "C").length : Int) * popularity demoStore "C" ≤ INT_MAX ∧
    ((mapFind "C" (recommendationScores demoStore "A").1).isSome ↔
      1 ≤ (coWatchers demoStore "A" "C").length) ∧
    scoreOf demoStore "A" "C" =
      ((coWatchers demoStore "A" "C").length : Int) * popularity demoStore "C" ∧
    (coWatchers demoStore "A" "C").length = 2 ∧ popularity demoStore "C" = 2 :=
  ⟨by decide, by decide, by decide, by decide,
    (recommendationScores_entry demoStore (by decide) "A" "C" (by decide)).1,
    (recommendationScores_entry demoStore (by decide) "A" "C" (by decide)).2.2
      (by decide) (by decide),
    by decide, by decide⟩

/-- C3 as stated fails: in `largeCountStore` two users watched both `T` and `W`, the view
count of `W` is `2^30`, and the accumulated score of `W` is not `2 * 2^30`. -/
theorem recommendationScores_entry_overflow :
    largeCountStore.WF ∧ "W" ≠ "T" ∧
    scoreOf largeCountStore "T" "W" ≠
      ((coWatchers largeCountStore "T" "W").length : Int) * popularity largeCountStore "W" := by
  decide

/-- C4: for every store and target video `T`, the list returned by
`generateRecommendations(T)` is in non-increasing order of accumulated score, and every
candidate video that is not returned has a score less than or equal to the score of every
returned video. -/
theorem generateRecommendations_ranked (s : Store) (T : String) :
    (generateRecommendations s T).1.Pairwise (fun a b => scoreOf s T b ≤ scoreOf s T a) ∧
    ∀ c ∈ candidates s T, c ∉ (generateRecommendations s T).1 →
      ∀ x ∈ (generateRecommendations s T).1, scoreOf s T c ≤ scoreOf s T x := by
  have hsorted := scoredRecommendations_sorted s T
  rw [generateRecommendations_fst]
  constructor
  · rw [List.pairwise_map]
    refine List.Pairwise.imp_of_mem ?_ (List.Pairwise.sublist (List.take_sublist 10 _) hsorted)
    intro a b ha hb hab
    rw [scoredRecommendations_scoreOf (List.mem_of_mem_take ha),
      scoredRecommendations_scoreOf (List.mem_of_mem_take hb)]
    exact hab
  · intro c hc hnot x hx
    rw [← scoredRecommendations_keys] at hc
    obtain ⟨p, hp, rfl⟩ := List.mem_map.1 hc
    obtain ⟨q, hq, rfl⟩ := List.mem_map.1 hx
    have hpd : p ∈ (scoredRecommendations s T).drop 10 := by
      have hmem : p ∈ (scoredRecommendations s T).take 10 ++ (scoredRecommendations s T).drop 10 := by
        rw [List.take_append_drop]
        exact hp
      rcases List.mem_append.1 hmem with h | h
      · exact absurd (List.mem_map_of_mem Prod.fst h) hnot
      · exact h
    rw [← List.take_append_drop 10 (scoredRecommendations s T), List.pairwise_append] at hsorted
    rw [scoredRecommendations_scoreOf hp, scoredRecommendations_scoreOf (List.mem_of_mem_take hq)]
    exact hsorted.2.2 q hq p hpd

/-- C5: for every store and target video `T`, the length of `generateRecommendations(T)` is
exactly `min(10, candidateCount)`, where `candidateCount` is the number of distinct videos
other than `T` in the watch-set of some user who watched `T`; the length is never more
than 10. -/
theorem generateRecommendations_length (s : Store) (T : String) :
    (generateRecommendations s T).1.length = min 10 (candidates s T).length ∧
    (generateRecommendations s T).1.length ≤ 10 := by
  have h : (generateRecommendations s T).1.length = min 10 (candidates s T).length := by
    rw [generateRecommendations_fst, List.length_map, List.length_take,
      (scoredRecommendations_perm s T).length_eq, recommendationScores_length]
  exact ⟨h, h ▸ Nat.min_le_left _ _⟩

/-- C6: for every store and every target video `T`, `T` is not an element of
`generateRecommendations(T)`. -/
theorem generateRecommendations_excludes_target (s : Store) (T : String) :
    T ∉ (generateRecommendations s T).1 := by
  intro h
  obtain ⟨p, _, _, _, hne⟩ := (mem_candidates s T T).1 (generateRecommendations_mem_candidates h)
  exact hne rfl

/-- C7: for every store and every target video `T` that no user's watch-set contains,
`generateRecommendations(T)` returns the empty list; the call is total and leaves the
store as it was. -/
theorem generateRecommendations_unwatched (s : Store) (T : String)
    (h : ∀ p ∈ s.userWatchHistory, T ∉ p.2) :
    generateRecommendations s T = ([], s) := by
  have hscores : ∀ (users : StrMap (List String)) (acc : StrMap Int × StrMap Int),
      (∀ p ∈ users, T ∉ p.2) → scoreUsers T users acc = acc := by
    intro users
    induction users with
    | nil => intro acc _; rfl
    | cons p rest ih =>
      intro acc hp
      obtain ⟨u, vs⟩ := p
      have hT : T ∉ vs := hp (u, vs) (List.mem_cons_self _ _)
      simp only [scoreUsers, hT, if_false]
      exact ih acc (fun q hq => hp q (List.mem_cons_of_mem _ hq))
  have hrec : recommendationScores s T = ([], s.videoPopularity) :=
    hscores s.userWatchHistory _ h
  unfold generateRecommendations scoredRecommendations
  rw [hrec]
  rfl

/-- Witness for C7: nobody watched `zzz`. -/
theorem generateRecommendations_unwatched_witness :
    (∀ p ∈ (recordAll emptyStore [("u1", "A"), ("u2", "B")]).userWatchHistory, "zzz" ∉ p.2) ∧
    generateRecommendations (recordAll emptyStore [("u1", "A"), ("u2", "B")]) "zzz" =
      ([], recordAll emptyStore [("u1", "A"), ("u2", "B")]) :=
  ⟨by decide,
    generateRecommendations_unwatched (recordAll emptyStore [("u1", "A"), ("u2", "B")]) "zzz"
      (by decide)⟩

/-- C8: for every store and target video `T`, every element of
`generateRecommendations(T)` is a video different from `T` in the watch-set of some user
who also watched `T`; whenever at most 10 such videos exist, every one of them is in the
result; and after `updateWatchHistory` of `(u1, A)`, `(u2, A)`, `(u2, B)`, `(u1, C)` on
the empty store, `generateRecommendations("A")` holds exactly `B` and `C` and not `A`. -/
theorem generateRecommendations_members (s : Store) (T : String) :
    (∀ x ∈ (generateRecommendations s T).1,
      x ≠ T ∧ ∃ p ∈ s.userWatchHistory, T ∈ p.2 ∧ x ∈ p.2) ∧
    ((candidates s T).length ≤ 10 →
      ∀ c, (c ≠ T ∧ ∃ p ∈ s.userWatchHistory, T ∈ p.2 ∧ c ∈ p.2) →
        c ∈ (generateRecommendations s T).1) ∧
    ("B" ∈ (generateRecommendations (recordAll emptyStore
        [("u1", "A"), ("u2", "A"), ("u2", "B"), ("u1", "C")]) "A").1 ∧
      "C" ∈ (generateRecommendations (recordAll emptyStore
        [("u1", "A"), ("u2", "A"), ("u2", "B"), ("u1", "C")]) "A").1 ∧
      "A" ∉ (generateRecommendations (recordAll emptyStore
        [("u1", "A"), ("u2", "A"), ("u2", "B"), ("u1", "C")]) "A").1 ∧
      (generateRecommendations (recordAll emptyStore
        [("u1", "A"), ("u2", "A"), ("u2", "B"), ("u1", "C")]) "A").1.length = 2) := by
  refine ⟨?_, ?_, by decide⟩
  · intro x hx
    obtain ⟨p, hp, hT, hx', hne⟩ :=
      (mem_candidates s T x).1 (generateRecommendations_mem_candidates hx)
    exact ⟨hne, p, hp, hT, hx'⟩
  · rintro hlen c ⟨hne, p, hp, hT, hc⟩
    have hcand : c ∈ candidates s T := (mem_candidates s T c).2 ⟨p, hp, hT, hc, hne⟩
    rw [generateRecommendations_fst, List.take_of_length_le, scoredRecommendations_keys]
    · exact hcand
    · rw [(scoredRecommendations_perm s T).length_eq, recommendationScores_length]
      exact hlen

/-- C9, as amended: for every well-formed store, target video `T`, candidate `W` of `T` and
every other candidate `X` of `T`: after `n ≥ 1` further calls `updateWatchHistory(u, W)`
that leave unchanged the set of users who co-watched `T` with each candidate, the score of
`X` is unchanged; and provided the view count of `W` after the calls and `k` times the view
count of `W` before and after the calls (with `k` the number of users who co-watched `T` and
`W`) fit an `int`, the score of `W` has not decreased, and if `W` was ranked before `X` in
the score order before the calls then `W` is ranked before `X` after them. -/
theorem ranking_monotone (s : Store) (hwf : s.WF) (T W X u : String) (n : Nat) (hn : 1 ≤ n)
    (hW : W ∈ candidates s T) (hX : X ∈ candidates s T) (hXW : X ≠ W)
    (hfix : ∀ c ∈ candidates s T, ∀ x,
      x ∈ coWatchers (repeatWatch n s u W) T c ↔ x ∈ coWatchers s T c) :
    scoreOf (repeatWatch n s u W) T X = scoreOf s T X ∧
    (popularity s W + (n : Int) ≤ INT_MAX →
      INT_MIN ≤ ((coWatchers s T W).length : Int) * popularity s W →
      ((coWatchers s T W).length : Int) * (popularity s W + (n : Int)) ≤ INT_MAX →
      scoreOf s T W ≤ scoreOf (repeatWatch n s u W) T W ∧
      ((ranking s T).indexOf W < (ranking s T).indexOf X →
        (ranking (repeatWatch n s u W) T).indexOf W <
          (ranking (repeatWatch n s u W) T).indexOf X)) := by
  have hwf' : (repeatWatch n s u W).WF := repeatWatch_WF hwf n u W
  have hWc := (mem_candidates_iff_coWatchers s T W).1 hW
  have hXc := (mem_candidates_iff_coWatchers s T X).1 hX
  have hkW := coWatchers_length_congr hwf hwf' T W (hfix W hW)
  have hkX := coWatchers_length_congr hwf hwf' T X (hfix X hX)
  have hW' : W ∈ candidates (repeatWatch n s u W) T :=
    (mem_candidates_iff_coWatchers _ T W).2 ⟨hkW ▸ hWc.1, hWc.2⟩
  have hX' : X ∈ candidates (repeatWatch n s u W) T :=
    (mem_candidates_iff_coWatchers _ T X).2 ⟨hkX ▸ hXc.1, hXc.2⟩
  have hsX : scoreOf (repeatWatch n s u W) T X = scoreOf s T X := by
    rw [scoreOf_eq_wrapInt hwf' T hXc.2, scoreOf_eq_wrapInt hwf T hXc.2, hkX,
      popularity_repeatWatch_ne n s u hXW]
  refine ⟨hsX, ?_⟩
  intro hpop hlo hhi
  have hk : (1 : Int) ≤ ((coWatchers s T W).length : Int) := by exact_mod_cast hWc.1
  have hn' : (1 : Int) ≤ (n : Int) := by exact_mod_cast hn
  have hpopW : popularity (repeatWatch n s u W) W = popularity s W + (n : Int) := by
    obtain ⟨m, rfl⟩ : ∃ m, n = m + 1 := ⟨n - 1, by omega⟩
    rw [popularity_repeatWatch]
    have hr := popularity_range hwf W
    apply wrapInt_of_range _ hpop
    omega
  have hgrow : ((coWatchers s T W).length : Int) * popularity s W +
      ((coWatchers s T W).length : Int) * (n : Int) =
      ((coWatchers s T W).length : Int) * (popularity s W + (n : Int)) := by ring
  have hprod : (1 : Int) ≤ ((coWatchers s T W).length : Int) * (n : Int) := by
    have := Int.mul_le_mul hk hn' (by norm_num) (by omega)
    simpa using this
  have hsW : scoreOf s T W = ((coWatchers s T W).length : Int) * popularity s W := by
    rw [scoreOf_eq_wrapInt hwf T hWc.2]
    apply wrapInt_of_range hlo
    omega
  have hsW' : scoreOf (repeatWatch n s u W) T W =
      ((coWatchers s T W).length : Int) * (popularity s W + (n : Int)) := by
    rw [scoreOf_eq_wrapInt hwf' T hWc.2, hkW, hpopW]
    apply wrapInt_of_range _ hhi
    omega
  refine ⟨by rw [hsW, hsW']; omega, ?_⟩
  intro hbefore
  have hle : scoreOf s T X ≤ scoreOf s T W :=
    pairwise_of_indexOf_lt (ranking_sorted s T) ((mem_ranking s T X).2 hX) hbefore
  by_contra hnot
  have hne : (ranking (repeatWatch n s u W) T).indexOf X ≠
      (ranking (repeatWatch n s u W) T).indexOf W := by
    intro e
    exact hXW ((List.indexOf_inj ((mem_ranking _ T X).2 hX') ((mem_ranking _ T W).2 hW')).1 e)
  have hlt : (ranking (repeatWatch n s u W) T).indexOf X <
      (ranking (repeatWatch n s u W) T).indexOf W := by omega
  have hle' : scoreOf (repeatWatch n s u W) T W ≤ scoreOf (repeatWatch n s u W) T X :=
    pairwise_of_indexOf_lt (ranking_sorted _ T) ((mem_ranking _ T W).2 hW') hlt
  rw [hsX, hsW'] at hle'
  rw [hsW] at hle
  omega

/-- Witness for C9: in `demoStore`, target `A`, `W = C`, `X = B`, and two more calls
`updateWatchHistory("u1", "C")` by a user who already watched `C`: the score of `B` stays,
the score of `C` does not decrease, and `C` stays ranked before `B`. -/
theorem ranking_monotone_witness :
    demoStore.WF ∧ 1 ≤ 2 ∧ "C" ∈ candidates demoStore "A" ∧ "B" ∈ candidates demoStore "A" ∧
    "B" ≠ "C" ∧
    (∀ c ∈ candidates demoStore "A", ∀ x,
      x ∈ coWatchers (repeatWatch 2 demoStore "u1" "C") "A" c ↔
        x ∈ coWatchers demoStore "A" c) ∧
    popularity demoStore "C" + ((2 : Nat) : Int) ≤ INT_MAX ∧
    INT_MIN ≤ ((coWatchers demoStore "A" "C").length : Int) * popularity demoStore "C" ∧
    ((coWatchers demoStore "A" "C").length : Int) *
      (popularity demoStore "C" + ((2 : Nat) : Int)) ≤ INT_MAX ∧
    (ranking demoStore "A").indexOf "C" < (ranking demoStore "A").indexOf "B" ∧
    scoreOf (repeatWatch 2 demoStore "u1" "C") "A" "B" = scoreOf demoStore "A" "B" ∧
    scoreOf demoStore "A" "C" ≤ scoreOf (repeatWatch 2 demoStore "u1" "C") "A" "C" ∧
    (ranking (repeatWatch 2 demoStore "u1" "C") "A").indexOf "C" <
      (ranking (repeatWatch 2 demoStore "u1" "C") "A").indexOf "B" :=
  ⟨by decide, by decide, by decide, by decide, by decide, fun _ _ _ => Iff.rfl, by decide,
    by decide, by decide, by decide,
    (ranking_monotone demoStore (by decide) "A" "C" "B" "u1" 2 (by decide) (by decide)
      (by decide) (by decide) (fun _ _ _ => Iff.rfl)).1,
    ((ranking_monotone demoStore (by decide) "A" "C" "B" "u1" 2 (by decide) (by decide)
      (by decide) (by decide) (fun _ _ _ => Iff.rfl)).2 (by decide) (by decide)
      (by decide)).1,
    ((ranking_monotone demoStore (by decide) "A" "C" "B" "u1" 2 (by decide) (by decide)
      (by decide) (by decide) (fun _ _ _ => Iff.rfl)).2 (by decide) (by decide)
      (by decide)).2 (by decide)⟩

/-- C9 as stated fails: in `fullCountStore` the user `u` already watched `W`, so one more
call `updateWatchHistory("u", "W")` leaves the watch-history as it was; yet the score of
`W` for the target `T` decreases, and `W`, ranked before `X` before the call, is ranked
after `X` after it. -/
theorem ranking_monotone_overflow :
    fullCountStore.WF ∧ "W" ∈ candidates fullCountStore "T" ∧
    "X" ∈ candidates fullCountStore "T" ∧ "W" ∈ watchSet fullCountStore "u" ∧
    (repeatWatch 1 fullCountStore "u" "W").userWatchHistory = fullCountStore.userWatchHistory ∧
    scoreOf (repeatWatch 1 fullCountStore "u" "W") "T" "W" < scoreOf fullCountStore "T" "W" ∧
    (ranking fullCountStore "T").indexOf "W" < (ranking fullCountStore "T").indexOf "X" ∧
    (ranking (repeatWatch 1 fullCountStore "u" "W") "T").indexOf "X" <
      (ranking (repeatWatch 1 fullCountStore "u" "W") "T").indexOf "W" := by
  decide

/-- C10: for every store reachable from the empty store by `updateWatchHistory` calls and
every target video `T`, `generateRecommendations(T)` leaves the watch-history map and the
popularity map, keys included, as they were. -/
theorem generateRecommendations_readOnly (s : Store) (h : Reachable s) (T : String) :
    (generateRecommendations s T).2 = s := by
  obtain ⟨events, rfl⟩ := h
  have hcounted := recordAll_counted (s := emptyStore)
    (fun _ hp => absurd hp (List.not_mem_nil _)) events
  have hsnd := scoreUsers_snd_eq T (recordAll emptyStore events).userWatchHistory
    ([], (recordAll emptyStore events).videoPopularity) hcounted
  unfold generateRecommendations recommendationScores
  rw [hsnd]

/-- Witness for C10: `demoStore` is reachable, and a scan for `A` leaves it as it was. -/
theorem generateRecommendations_readOnly_witness :
    Reachable demoStore ∧ (generateRecommendations demoStore "A").2 = demoStore :=
  ⟨⟨_, rfl⟩, generateRecommendations_readOnly demoStore ⟨_, rfl⟩ "A"⟩

/-- Outside the reachable stores the scan is not read-only: when a watched video has no
popularity entry, `videoPopularity[watchedVideo]` creates one. -/
theorem generateRecommendations_inserts_key :
    (generateRecommendations (Store.mk [("u", ["A", "B"])] []) "A").2 =
      Store.mk [("u", ["A", "B"])] [("B", 0)] := by
  decide

/-! ## Token extraction -/

theorem startsWith_append (p l : List Char) : startsWith p (p ++ l) = true := by
  induction p with
  | nil => cases l <;> rfl
  | cons a t ih => simp [startsWith, ih]

theorem startsWith_eq_true_iff (p l : List Char) :
    startsWith p l = true ↔ ∃ t, l = p ++ t := by
  induction p generalizing l with
  | nil => cases l <;> simp [startsWith]
  | cons a t ih =>
    cases l with
    | nil => simp [startsWith]
    | cons c cs =>
      simp only [startsWith, Bool.and_eq_true, decide_eq_true_eq, ih, List.cons_append,
        List.cons.injEq]
      constructor
      · rintro ⟨rfl, r, rfl⟩
        exact ⟨r, rfl, rfl⟩
      · rintro ⟨r, rfl, rfl⟩
        exact ⟨rfl, r, rfl⟩

theorem dropWhile_isSpace_of_token {tok : List Char} (htok : ∀ c ∈ tok, isSpace c = false)
    (hne : tok ≠ []) (rest : List Char) :
    (tok ++ rest).dropWhile isSpace = tok ++ rest := by
  cases tok with
  | nil => exact absurd rfl hne
  | cons a t =>
    have ha : isSpace a = false := htok a (List.mem_cons_self _ _)
    simp [List.dropWhile, ha]

theorem takeWhile_token {tok rest : List Char} (htok : ∀ c ∈ tok, isSpace c = false)
    (hrest : ∀ c ∈ rest.head?, isSpace c = true) :
    (tok ++ rest).takeWhile (fun c => !isSpace c) = tok := by
  rw [List.takeWhile_append_of_pos (fun a ha => by simp [htok a ha])]
  cases rest with
  | nil => simp
  | cons b r =>
    have hb : isSpace b = true := hrest b (by simp)
    simp [List.takeWhile, hb]

theorem dropWhile_token {tok rest : List Char} (htok : ∀ c ∈ tok, isSpace c = false)
    (hrest : ∀ c ∈ rest.head?, isSpace c = true) :
    (tok ++ rest).dropWhile (fun c => !isSpace c) = rest := by
  rw [List.dropWhile_append_of_pos (fun a ha => by simp [htok a ha])]
  cases rest with
  | nil => simp
  | cons b r =>
    have hb : isSpace b = true := hrest b (by simp)
    simp [List.dropWhile, hb]

/-- A token in front of the stream, followed by whitespace or by the end, is extracted
whole. -/
theorem extract_token {tok rest : List Char} (htok : ∀ c ∈ tok, isSpace c = false)
    (hne : tok ≠ []) (hrest : ∀ c ∈ rest.head?, isSpace c = true) :
    extract (tok ++ rest) = (tok, rest) := by
  unfold extract
  rw [dropWhile_isSpace_of_token htok hne, takeWhile_token htok hrest,
    dropWhile_token htok hrest]

/-- Leading whitespace is skipped. -/
theorem extract_skip {ws : List Char} (hws : ∀ c ∈ ws, isSpace c = true) (l : List Char) :
    extract (ws ++ l) = extract l := by
  unfold extract
  rw [List.dropWhile_append_of_pos hws]

/-- No token is left in a stream of whitespace. -/
theorem extract_spaces {ws : List Char} (hws : ∀ c ∈ ws, isSpace c = true) :
    extract ws = ([], []) := by
  unfold extract
  rw [List.dropWhile_eq_nil_iff.2 (fun c hc => hws c hc)]
  rfl

theorem head?_space_of_append {ws : List Char} (hws : ∀ c ∈ ws, isSpace c = true)
    (hne : ws ≠ []) (l : List Char) : ∀ c ∈ (ws ++ l).head?, isSpace c = true := by
  cases ws with
  | nil => exact absurd rfl hne
  | cons a t =>
    intro c hc
    simp at hc
    exact hc ▸ hws a (List.mem_cons_self _ _)

/-! ## The list text -/

theorem ossText_foldl_data (recommendations : List String) (acc : String) :
    (recommendations.foldl (fun oss vid => oss ++ "\"" ++ vid ++ "\",") acc).data =
      acc.data ++ recommendations.flatMap (fun vid => ("\"" ++ vid ++ "\",").data) := by
  induction recommendations generalizing acc with
  | nil => simp
  | cons v rest ih =>
    rw [List.foldl_cons, ih, List.flatMap_cons]
    simp only [String.data_append, List.append_assoc]

theorem flatMap_items_eq_joinComma (recommendations : List String)
    (h : recommendations ≠ []) :
    recommendations.flatMap (fun vid => ("\"" ++ vid ++ "\",").data) =
      (joinComma (recommendations.map (fun vid => "\"" ++ vid ++ "\""))).data ++ ",".data := by
  induction recommendations with
  | nil => exact absurd rfl h
  | cons a rest ih =>
    cases rest with
    | nil =>
      simp only [List.flatMap_cons, List.flatMap_nil, List.append_nil, List.map_cons,
        List.map_nil, joinComma, String.data_append, List.append_assoc]
      rfl
    | cons b r =>
      rw [List.flatMap_cons, ih (List.cons_ne_nil b r)]
      simp only [List.map_cons, joinComma, String.data_append, List.append_assoc]
      rfl

/-- Replacing the last character of the stream text by `]` gives the list rendering, with
whatever text stood in front of the stream text kept in front. -/
theorem setBack_ossText (front : String) (recommendations : List String)
    (h : recommendations ≠ []) :
    setBack (front ++ ossText recommendations) ']' = front ++ listRendering recommendations := by
  apply String.ext
  show (front ++ ossText recommendations).data.dropLast ++ [']'] = _
  unfold ossText listRendering
  rw [String.data_append, ossText_foldl_data, flatMap_items_eq_joinComma _ h]
  have hcomma : ",".data = [','] := rfl
  rw [hcomma, ← List.append_assoc, ← List.append_assoc, List.dropLast_concat]
  simp only [String.data_append, List.append_assoc]

/-- The RECOMMEND_FOR_VIDEO branch builds the list rendering, for every list. -/
theorem recommendResponse_eq_listRendering (recommendations : List String) :
    recommendResponse recommendations = listRendering recommendations := by
  cases recommendations with
  | nil => rfl
  | cons a rest =>
    have h := setBack_ossText "" (a :: rest) (List.cons_ne_nil a rest)
    simpa [recommendResponse] using h

/-- The WATCH branch builds the list rendering for the empty list only; for every other
list its text has one more `[` in front of the rendering. -/
theorem watchResponse_eq (recommendations : List String) :
    watchResponse recommendations =
      if recommendations = [] then "WATCH_UPDATED, Recommendations: " ++ listRendering []
      else "WATCH_UPDATED, Recommendations: [" ++ listRendering recommendations := by
  cases recommendations with
  | nil => rfl
  | cons a rest =>
    have h := setBack_ossText ("WATCH_UPDATED" ++ ", Recommendations: [") (a :: rest)
      (List.cons_ne_nil a rest)
    simpa [watchResponse] using h

/-! ## The branches of the request handler -/

theorem watch_keyword_chars : ∀ c ∈ "WATCH".data, isSpace c = false := by decide

theorem recommend_keyword_chars : ∀ c ∈ "RECOMMEND_FOR_VIDEO".data, isSpace c = false := by
  decide

theorem startsWith_watch_recommend (l : List Char) :
    startsWith "WATCH".data ("RECOMMEND_FOR_VIDEO".data ++ l) = false := rfl

theorem append_token_chars {a b : List Char} (ha : ∀ c ∈ a, isSpace c = false)
    (hb : ∀ c ∈ b, isSpace c = false) : ∀ c ∈ a ++ b, isSpace c = false := by
  intro c hc
  rcases List.mem_append.1 hc with h | h
  · exact ha c h
  · exact hb c h

theorem head?_space_of_spaces {ws : List Char} (hws : ∀ c ∈ ws, isSpace c = true) :
    ∀ c ∈ ws.head?, isSpace c = true := by
  intro c hc
  exact hws c (List.mem_of_mem_head? hc)

/-- The WATCH branch on a request with both tokens: the update, then the scan for the video
just watched. -/
theorem handleRequest_watch_form (s : Store) (ws1 userId ws2 videoId rest : String)
    (hws1 : ∀ c ∈ ws1.data, isSpace c = true) (hws1ne : ws1.data ≠ [])
    (hu : ∀ c ∈ userId.data, isSpace c = false) (hune : userId.data ≠ [])
    (hws2 : ∀ c ∈ ws2.data, isSpace c = true) (hws2ne : ws2.data ≠ [])
    (hv : ∀ c ∈ videoId.data, isSpace c = false) (hvne : videoId.data ≠ [])
    (hrest : ∀ c ∈ rest.data.head?, isSpace c = true) :
    handleRequest s ("WATCH" ++ ws1 ++ userId ++ ws2 ++ videoId ++ rest) =
      (watchResponse (generateRecommendations (updateWatchHistory s userId videoId) videoId).1,
        (generateRecommendations (updateWatchHistory s userId videoId) videoId).2) := by
  have hreq : ("WATCH" ++ ws1 ++ userId ++ ws2 ++ videoId ++ rest).data =
      "WATCH".data ++ (ws1.data ++ (userId.data ++ (ws2.data ++ (videoId.data ++ rest.data)))) := by
    simp only [String.data_append, List.append_assoc]
  have e1 := @extract_token "WATCH".data
    (ws1.data ++ (userId.data ++ (ws2.data ++ (videoId.data ++ rest.data))))
    watch_keyword_chars (by decide) (head?_space_of_append hws1 hws1ne _)
  have e2 : extract (ws1.data ++ (userId.data ++ (ws2.data ++ (videoId.data ++ rest.data)))) =
      (userId.data, ws2.data ++ (videoId.data ++ rest.data)) := by
    rw [extract_skip hws1]
    exact extract_token hu hune (head?_space_of_append hws2 hws2ne _)
  have e3 : extract (ws2.data ++ (videoId.data ++ rest.data)) = (videoId.data, rest.data) := by
    rw [extract_skip hws2]
    exact extract_token hv hvne hrest
  unfold handleRequest
  rw [hreq, startsWith_append, e1, e2, e3]
  simp only [if_true, ne_eq, hune, hvne, not_false_eq_true, and_self]

/-- The RECOMMEND_FOR_VIDEO branch on a request with a video token: the scan for that
video. -/
theorem handleRequest_recommend_form (s : Store) (ws videoId rest : String)
    (hws : ∀ c ∈ ws.data, isSpace c = true) (hwsne : ws.data ≠ [])
    (hv : ∀ c ∈ videoId.data, isSpace c = false) (hvne : videoId.data ≠ [])
    (hrest : ∀ c ∈ rest.data.head?, isSpace c = true) :
    handleRequest s ("RECOMMEND_FOR_VIDEO" ++ ws ++ videoId ++ rest) =
      (recommendResponse (generateRecommendations s videoId).1,
        (generateRecommendations s videoId).2) := by
  have hreq : ("RECOMMEND_FOR_VIDEO" ++ ws ++ videoId ++ rest).data =
      "RECOMMEND_FOR_VIDEO".data ++ (ws.data ++ (videoId.data ++ rest.data)) := by
    simp only [String.data_append, List.append_assoc]
  have e1 := @extract_token "RECOMMEND_FOR_VIDEO".data (ws.data ++ (videoId.data ++ rest.data))
    recommend_keyword_chars (by decide) (head?_space_of_append hws hwsne _)
  have e2 : extract (ws.data ++ (videoId.data ++ rest.data)) = (videoId.data, rest.data) := by
    rw [extract_skip hws]
    exact extract_token hv hvne hrest
  unfold handleRequest
  rw [hreq, startsWith_watch_recommend, startsWith_append, e1, e2]
  simp only [if_true, ne_eq, hvne, not_false_eq_true, Bool.false_eq_true, if_false]

/-- The RECOMMEND_FOR_VIDEO branch on a request with no token after the keyword. -/
theorem handleRequest_recommend_short (s : Store) (ws : String)
    (hws : ∀ c ∈ ws.data, isSpace c = true) :
    handleRequest s ("RECOMMEND_FOR_VIDEO" ++ ws) =
      ("ERROR: Invalid RECOMMEND_FOR_VIDEO command format", s) := by
  have hreq : ("RECOMMEND_FOR_VIDEO" ++ ws).data = "RECOMMEND_FOR_VIDEO".data ++ ws.data := by
    simp only [String.data_append]
  have e1 := @extract_token "RECOMMEND_FOR_VIDEO".data ws.data recommend_keyword_chars
    (by decide) (head?_space_of_spaces hws)
  unfold handleRequest
  rw [hreq, startsWith_watch_recommend, startsWith_append, e1, extract_spaces hws]
  simp

/-- A scan of a reachable store leaves the store as it was. -/
theorem generateRecommendations_snd_of_reachable {s : Store} (h : Reachable s) (T : String) :
    (generateRecommendations s T).2 = s := by
  obtain ⟨events, rfl⟩ := h
  have hcounted := recordAll_counted (s := emptyStore)
    (fun _ hp => absurd hp (List.not_mem_nil _)) events
  have hsnd := scoreUsers_snd_eq T (recordAll emptyStore events).userWatchHistory
    ([], (recordAll emptyStore events).videoPopularity) hcounted
  unfold generateRecommendations recommendationScores
  rw [hsnd]

theorem updateWatchHistory_reachable {s : Store} (h : Reachable s) (u v : String) :
    Reachable (updateWatchHistory s u v) := by
  obtain ⟨events, rfl⟩ := h
  refine ⟨events ++ [(u, v)], ?_⟩
  have happ : ∀ (t : Store) (l : List (String × String)),
      recordAll t (l ++ [(u, v)]) = updateWatchHistory (recordAll t l) u v := by
    intro t l
    induction l generalizing t with
    | nil => rfl
    | cons e r ih => exact ih (updateWatchHistory t e.1 e.2)
  exact (happ emptyStore events).symm

theorem startsWith_commandKeyword {p : List Char} (hp : ∀ c ∈ p, isSpace c = false)
    (hne : p ≠ []) {request : String} (h : startsWith p request.data = true) :
    startsWith p (commandKeyword request).data = true := by
  obtain ⟨t, ht⟩ := (startsWith_eq_true_iff p request.data).1 h
  show startsWith p (extract request.data).1 = true
  unfold extract
  rw [ht, dropWhile_isSpace_of_token hp hne,
    List.takeWhile_append_of_pos (fun a ha => by simp [hp a ha])]
  exact startsWith_append p _

/-- The WATCH branch on a reachable store: the store afterwards is the one a single
`updateWatchHistory` call gives, and the response is the fixed text followed by `[]` for an
empty list and by `[` and the list rendering for any other list. -/
theorem handleRequest_watch_reachable (s : Store) (hs : Reachable s)
    (ws1 userId ws2 videoId rest : String)
    (hws1 : ∀ c ∈ ws1.data, isSpace c = true) (hws1ne : ws1.data ≠ [])
    (hu : ∀ c ∈ userId.data, isSpace c = false) (hune : userId.data ≠ [])
    (hws2 : ∀ c ∈ ws2.data, isSpace c = true) (hws2ne : ws2.data ≠ [])
    (hv : ∀ c ∈ videoId.data, isSpace c = false) (hvne : videoId.data ≠ [])
    (hrest : ∀ c ∈ rest.data.head?, isSpace c = true) :
    handleRequest s ("WATCH" ++ ws1 ++ userId ++ ws2 ++ videoId ++ rest) =
      ((if (generateRecommendations (updateWatchHistory s userId videoId) videoId).1 = [] then
          "WATCH_UPDATED, Recommendations: " ++ listRendering []
        else "WATCH_UPDATED, Recommendations: [" ++
          listRendering (generateRecommendations (updateWatchHistory s userId videoId) videoId).1),
        updateWatchHistory s userId videoId) := by
  rw [handleRequest_watch_form s ws1 userId ws2 videoId rest hws1 hws1ne hu hune hws2 hws2ne
    hv hvne hrest, watchResponse_eq,
    generateRecommendations_snd_of_reachable (updateWatchHistory_reachable hs userId videoId)]

/-! ## Claims about `handleClient` -/

/-- C11, the code at a failing input: on a fresh server a client sends `WATCH u1 A` and then
`WATCH u1 B`.  The second response is `WATCH_UPDATED, Recommendations: [["A"]`, with two
opening brackets, while the text of the claim, the fixed words followed by the list
rendering of the recommendations for `B`, is `WATCH_UPDATED, Recommendations: ["A"]`.  The
store afterwards is the one the two `updateWatchHistory` calls give. -/
theorem handleClient_watch_double_bracket :
    (handleClient emptyStore ["WATCH u1 A", "WATCH u1 B"]).1 =
      ["WATCH_UPDATED, Recommendations: []", "WATCH_UPDATED, Recommendations: [[\"A\"]"] ∧
    "WATCH_UPDATED, Recommendations: " ++ listRendering (generateRecommendations
        (recordAll emptyStore [("u1", "A"), ("u1", "B")]) "B").1 =
      "WATCH_UPDATED, Recommendations: [\"A\"]" ∧
    (handleClient emptyStore ["WATCH u1 A", "WATCH u1 B"]).2 =
      recordAll emptyStore [("u1", "A"), ("u1", "B")] := by
  decide

/-- C12: for every store and every WATCH request that lacks a required token, that is the
keyword `WATCH` followed by whitespace alone or by a single token, the response is exactly
`ERROR: Invalid WATCH command format` and the store is unchanged. -/
theorem handleRequest_watch_missing_token (s : Store) (ws1 userId ws2 : String)
    (hws1 : ∀ c ∈ ws1.data, isSpace c = true)
    (hu : ∀ c ∈ userId.data, isSpace c = false)
    (hws2 : ∀ c ∈ ws2.data, isSpace c = true) :
    handleRequest s ("WATCH" ++ ws1 ++ userId ++ ws2) =
      ("ERROR: Invalid WATCH command format", s) := by
  have hreq : ("WATCH" ++ ws1 ++ userId ++ ws2).data =
      "WATCH".data ++ (ws1.data ++ (userId.data ++ ws2.data)) := by
    simp only [String.data_append, List.append_assoc]
  have hend : extract ws2.data = ([], []) := extract_spaces hws2
  unfold handleRequest
  rw [hreq, startsWith_append]
  by_cases h1 : ws1.data = []
  · have e1 : extract ("WATCH".data ++ (ws1.data ++ (userId.data ++ ws2.data))) =
        ("WATCH".data ++ userId.data, ws2.data) := by
      rw [h1, List.nil_append, ← List.append_assoc]
      exact extract_token (append_token_chars watch_keyword_chars hu) (by simp)
        (head?_space_of_spaces hws2)
    rw [e1, hend]
    simp
  · have e1 := @extract_token "WATCH".data (ws1.data ++ (userId.data ++ ws2.data))
      watch_keyword_chars (by decide) (head?_space_of_append hws1 h1 _)
    rw [e1, extract_skip hws1]
    by_cases h2 : userId.data = []
    · rw [h2, List.nil_append, hend]
      simp
    · rw [extract_token hu h2 (head?_space_of_spaces hws2), hend]
      simp

/-- Witness for C12: the requests `WATCH u1` and `WATCH` on `demoStore`. -/
theorem handleRequest_watch_missing_token_witness :
    (∀ c ∈ " ".data, isSpace c = true) ∧ (∀ c ∈ "u1".data, isSpace c = false) ∧
    (∀ c ∈ "".data, isSpace c = true) ∧
    handleRequest demoStore ("WATCH" ++ " " ++ "u1" ++ "") =
      ("ERROR: Invalid WATCH command format", demoStore) ∧
    handleRequest demoStore ("WATCH" ++ "" ++ "" ++ "") =
      ("ERROR: Invalid WATCH command format", demoStore) :=
  ⟨by decide, by decide, by decide,
    handleRequest_watch_missing_token demoStore " " "u1" "" (by decide) (by decide) (by decide),
    handleRequest_watch_missing_token demoStore "" "" "" (by decide) (by decide) (by decide)⟩

/-- C13: for every reachable store and every request `RECOMMEND_FOR_VIDEO <videoID>` with a
non-empty videoID token, the response is exactly the list rendering of
`generateRecommendations(videoID)`, which is `[]` for the empty list, and the store is
unchanged; when the videoID token is missing the response is exactly
`ERROR: Invalid RECOMMEND_FOR_VIDEO command format` and the store is unchanged. -/
theorem handleRequest_recommend (s : Store) (hs : Reachable s) (ws videoId rest : String)
    (hws : ∀ c ∈ ws.data, isSpace c = true) (hwsne : ws.data ≠ [])
    (hv : ∀ c ∈ videoId.data, isSpace c = false) (hvne : videoId.data ≠ [])
    (hrest : ∀ c ∈ rest.data.head?, isSpace c = true) :
    handleRequest s ("RECOMMEND_FOR_VIDEO" ++ ws ++ videoId ++ rest) =
      (listRendering (generateRecommendations s videoId).1, s) ∧
    listRendering [] = "[]" ∧
    (∀ spaces : String, (∀ c ∈ spaces.data, isSpace c = true) →
      handleRequest s ("RECOMMEND_FOR_VIDEO" ++ spaces) =
        ("ERROR: Invalid RECOMMEND_FOR_VIDEO command format", s)) := by
  refine ⟨?_, rfl, fun spaces hsp => handleRequest_recommend_short s spaces hsp⟩
  rw [handleRequest_recommend_form s ws videoId rest hws hwsne hv hvne hrest,
    recommendResponse_eq_listRendering, generateRecommendations_snd_of_reachable hs]

/-- Witness for C13: on `demoStore` the request `RECOMMEND_FOR_VIDEO zzz` is answered `[]`
and the request `RECOMMEND_FOR_VIDEO A` is answered `["C","B"]`. -/
theorem handleRequest_recommend_witness :
    Reachable demoStore ∧ (∀ c ∈ " ".data, isSpace c = true) ∧ " ".data ≠ [] ∧
    (∀ c ∈ "zzz".data, isSpace c = false) ∧ "zzz".data ≠ [] ∧
    (∀ c ∈ "".data.head?, isSpace c = true) ∧
    handleRequest demoStore ("RECOMMEND_FOR_VIDEO" ++ " " ++ "zzz" ++ "") =
      (listRendering (generateRecommendations demoStore "zzz").1, demoStore) ∧
    handleRequest demoStore "RECOMMEND_FOR_VIDEO zzz" = ("[]", demoStore) ∧
    handleRequest demoStore "RECOMMEND_FOR_VIDEO A" = ("[\"C\",\"B\"]", demoStore) :=
  ⟨⟨_, rfl⟩, by decide, by decide, by decide, by decide, by decide,
    (handleRequest_recommend demoStore ⟨_, rfl⟩ " " "zzz" "" (by decide) (by decide)
      (by decide) (by decide) (by decide)).1,
    by decide, by decide⟩

/-- C14, the code at a failing input: for the list `B, C` the RECOMMEND_FOR_VIDEO branch
builds the list rendering `["B","C"]`, and the WATCH branch builds `[["B","C"]` after its
fixed words, one `[` more than the rendering. -/
theorem watchResponse_double_bracket :
    listRendering ["B", "C"] = "[\"B\",\"C\"]" ∧
    recommendResponse ["B", "C"] = listRendering ["B", "C"] ∧
    watchResponse ["B", "C"] = "WATCH_UPDATED, Recommendations: [" ++ listRendering ["B", "C"] ∧
    watchResponse ["B", "C"] ≠ "WATCH_UPDATED, Recommendations: " ++ listRendering ["B", "C"] := by
  decide

/-- When the command keyword begins with neither word, the request text begins with neither
word: the keyword is the text from its first non-blank character on. -/
theorem startsWith_false_of_commandKeyword {p : List Char} (hp : ∀ c ∈ p, isSpace c = false)
    (hne : p ≠ []) {request : String}
    (h : startsWith p (commandKeyword request).data = false) :
    startsWith p request.data = false := by
  cases hreq : startsWith p request.data with
  | false => rfl
  | true =>
    rw [startsWith_commandKeyword hp hne hreq] at h
    exact absurd h (by decide)

/-- C15, as amended: for every store and every request text that begins with neither
`WATCH` nor `RECOMMEND_FOR_VIDEO`, the test being on the leading characters of the text
and not on its first whitespace-delimited token, the response is exactly
`ERROR: Unrecognized command` and the store is unchanged. -/
theorem handleRequest_unrecognized (s : Store) (request : String)
    (hw : startsWith "WATCH".data request.data = false)
    (hr : startsWith "RECOMMEND_FOR_VIDEO".data request.data = false) :
    handleRequest s request = ("ERROR: Unrecognized command", s) := by
  unfold handleRequest
  rw [hw, hr]
  simp

/-- Witness for C15: on `demoStore` the request `PING x`, and the request ` WATCHX u1 v1`
with a leading blank, whose command keyword is `WATCHX`. -/
theorem handleRequest_unrecognized_witness :
    startsWith "WATCH".data " WATCHX u1 v1".data = false ∧
    startsWith "RECOMMEND_FOR_VIDEO".data " WATCHX u1 v1".data = false ∧
    commandKeyword " WATCHX u1 v1" = "WATCHX" ∧
    handleRequest demoStore " WATCHX u1 v1" = ("ERROR: Unrecognized command", demoStore) ∧
    handleRequest demoStore "PING x" = ("ERROR: Unrecognized command", demoStore) :=
  ⟨by decide, by decide, by decide,
    handleRequest_unrecognized demoStore " WATCHX u1 v1" (by decide) (by decide),
    handleRequest_unrecognized demoStore "PING x" (by decide) (by decide)⟩

/-- C15 as stated fails: the command keyword of `WATCHX u1 v1` is `WATCHX`, neither `WATCH`
nor `RECOMMEND_FOR_VIDEO`, yet the request is handled as a WATCH request: the response is
not `ERROR: Unrecognized command` and the store changes. -/
theorem handleRequest_unrecognized_keyword_start :
    commandKeyword "WATCHX u1 v1" = "WATCHX" ∧
    commandKeyword "WATCHX u1 v1" ≠ "WATCH" ∧
    commandKeyword "WATCHX u1 v1" ≠ "RECOMMEND_FOR_VIDEO" ∧
    handleRequest emptyStore "WATCHX u1 v1" =
      ("WATCH_UPDATED, Recommendations: []", updateWatchHistory emptyStore "u1" "v1") ∧
    (handleRequest emptyStore "WATCHX u1 v1").1 ≠ "ERROR: Unrecognized command" ∧
    (handleRequest emptyStore "WATCHX u1 v1").2 ≠ emptyStore := by
  decide

/-! ## Growth and order of `updateWatchHistory` calls -/

theorem mem_keys_update (s : Store) (u v u' : String) :
    u' ∈ (updateWatchHistory s u v).userWatchHistory.map Prod.fst ↔
      u' ∈ s.userWatchHistory.map Prod.fst ∨ u' = u :=
  mem_mapModify_keys u u' [] (setInsert v) s.userWatchHistory

theorem mem_watchSet_update (s : Store) (u v u' w : String) :
    w ∈ watchSet (updateWatchHistory s u v) u' ↔ w ∈ watchSet s u' ∨ (u' = u ∧ w = v) := by
  by_cases h : u' = u
  · subst h
    rw [watchSet_update_self, setInsert_mem]
    tauto
  · rw [watchSet_update_ne s h]
    tauto

theorem mapFind_popularity_update (s : Store) (u v v' : String) :
    mapFind v' (updateWatchHistory s u v).videoPopularity =
      if v' = v then some (wrapInt ((mapFind v s.videoPopularity).getD 0 + 1))
      else mapFind v' s.videoPopularity := by
  by_cases h : v' = v
  · subst h
    simp [updateWatchHistory, mapFind_mapModify_self]
  · simp [updateWatchHistory, mapFind_mapModify_ne h, h]

theorem Store.Same.refl (s : Store) : s.Same s :=
  ⟨fun _ => Iff.rfl, fun _ _ => Iff.rfl, fun _ => rfl⟩

theorem Store.Same.trans {s t r : Store} (h1 : s.Same t) (h2 : t.Same r) : s.Same r :=
  ⟨fun u => (h1.1 u).trans (h2.1 u), fun u w => (h1.2.1 u w).trans (h2.2.1 u w),
    fun v => (h1.2.2 v).trans (h2.2.2 v)⟩

theorem Store.Same.update {s t : Store} (h : s.Same t) (u v : String) :
    (updateWatchHistory s u v).Same (updateWatchHistory t u v) := by
  refine ⟨?_, ?_, ?_⟩
  · intro u'
    rw [mem_keys_update, mem_keys_update, h.1 u']
  · intro u' w
    rw [mem_watchSet_update, mem_watchSet_update, h.2.1 u' w]
  · intro v'
    rw [mapFind_popularity_update, mapFind_popularity_update, h.2.2 v', h.2.2 v]

theorem Store.Same.recordAll {s t : Store} (h : s.Same t) (events : List (String × String)) :
    (Server.recordAll s events).Same (Server.recordAll t events) := by
  induction events generalizing s t with
  | nil => exact h
  | cons e rest ih => exact ih (h.update e.1 e.2)

theorem updateWatchHistory_swap (s : Store) (u1 v1 u2 v2 : String) :
    (updateWatchHistory (updateWatchHistory s u1 v1) u2 v2).Same
      (updateWatchHistory (updateWatchHistory s u2 v2) u1 v1) := by
  refine ⟨?_, ?_, ?_⟩
  · intro u'
    simp only [mem_keys_update]
    tauto
  · intro u' w
    simp only [mem_watchSet_update]
    tauto
  · intro v'
    simp only [mapFind_popularity_update]
    by_cases h12 : v1 = v2
    · subst h12
      simp
    · have h21 : ¬ v2 = v1 := fun e => h12 e.symm
      by_cases h1 : v' = v1
      · subst h1
        simp [h12]
      · by_cases h2 : v' = v2
        · subst h2
          simp [h21]
        · simp [h1, h2]

theorem recordAll_perm (s : Store) {events events' : List (String × String)}
    (h : events.Perm events') : (recordAll s events).Same (recordAll s events') := by
  induction h generalizing s with
  | nil => exact Store.Same.refl s
  | cons e _ ih => exact ih (updateWatchHistory s e.1 e.2)
  | swap a b l => exact (updateWatchHistory_swap s b.1 b.2 a.1 a.2).recordAll l
  | trans _ _ ih1 ih2 => exact (ih1 s).trans (ih2 s)

/-! ## Claims about the store as a whole -/

/-- C16, as amended: for every store, user `U` and video `V`, `updateWatchHistory(U, V)`
removes no user, no video and no (user, video) membership, leaves the watch-set of every
user other than `U` unchanged and leaves the view count of every video other than `V`
unchanged; and in a well-formed store it decreases no view count provided the view count of
`V` is below `INT_MAX`. -/
theorem updateWatchHistory_grows (s : Store) (U V : String) :
    (∀ u ∈ s.userWatchHistory.map Prod.fst,
      u ∈ (updateWatchHistory s U V).userWatchHistory.map Prod.fst) ∧
    (∀ v ∈ s.videoPopularity.map Prod.fst,
      v ∈ (updateWatchHistory s U V).videoPopularity.map Prod.fst) ∧
    (∀ u w, w ∈ watchSet s u → w ∈ watchSet (updateWatchHistory s U V) u) ∧
    (∀ u, u ≠ U → mapFind u (updateWatchHistory s U V).userWatchHistory =
      mapFind u s.userWatchHistory) ∧
    (∀ v, v ≠ V → mapFind v (updateWatchHistory s U V).videoPopularity =
      mapFind v s.videoPopularity) ∧
    (s.WF → popularity s V < INT_MAX →
      ∀ v, popularity s v ≤ popularity (updateWatchHistory s U V) v) := by
  refine ⟨?_, ?_, ?_, ?_, ?_, ?_⟩
  · intro u hu
    exact (mem_keys_update s U V u).2 (Or.inl hu)
  · intro v hv
    exact (mem_mapModify_keys V v 0 _ s.videoPopularity).2 (Or.inl hv)
  · intro u w hw
    exact (mem_watchSet_update s U V u w).2 (Or.inl hw)
  · intro u hu
    exact mapFind_mapModify_ne hu _ _ _
  · intro v hv
    exact mapFind_mapModify_ne hv _ _ _
  · intro hwf hlt v
    by_cases hv : v = V
    · subst hv
      have hr := popularity_range hwf v
      rw [popularity_update_self, wrapInt_of_range]
      · omega
      · omega
      · unfold INT_MAX at hlt ⊢
        omega
    · rw [popularity_update_ne s U hv]

/-- Witness for C16: `updateWatchHistory("u9", "A")` on `demoStore` keeps the watch-set of
`u1` and raises the view count of `A` from 2 to 3. -/
theorem updateWatchHistory_grows_witness :
    demoStore.WF ∧ popularity demoStore "A" < INT_MAX ∧
    (∀ v, popularity demoStore v ≤ popularity (updateWatchHistory demoStore "u9" "A") v) ∧
    popularity (updateWatchHistory demoStore "u9" "A") "A" = 3 ∧
    watchSet (updateWatchHistory demoStore "u9" "A") "u1" = watchSet demoStore "u1" :=
  ⟨by decide, by decide,
    (updateWatchHistory_grows demoStore "u9" "A").2.2.2.2.2 (by decide) (by decide),
    by decide, by decide⟩

/-- C16 as stated fails: in `fullCountStore` the view count of `W` is `INT_MAX`, and
`updateWatchHistory("u", "W")` leaves a smaller view count for `W`. -/
theorem updateWatchHistory_grows_overflow :
    fullCountStore.WF ∧
    popularity (updateWatchHistory fullCountStore "u" "W") "W" <
      popularity fullCountStore "W" := by
  decide

/-- C18: `updateWatchHistory` calls commute: for every store and all `(U1, V1)`, `(U2, V2)`,
the two orders of the two calls give the same watch-history and popularity maps; and the
store reached by a sequence of watch events is the same for every reordering of the
sequence. -/
theorem updateWatchHistory_comm (s : Store) (U1 V1 U2 V2 : String) :
    (updateWatchHistory (updateWatchHistory s U1 V1) U2 V2).Same
      (updateWatchHistory (updateWatchHistory s U2 V2) U1 V1) ∧
    ∀ events events' : List (String × String), events.Perm events' →
      (recordAll s events).Same (recordAll s events') :=
  ⟨updateWatchHistory_swap s U1 V1 U2 V2, fun _ _ h => recordAll_perm s h⟩

theorem watchEvents_pos {events : List (String × String)} {u w : String}
    (h : (u, w) ∈ events) : 1 ≤ watchEvents events w := by
  unfold watchEvents
  exact List.countP_pos_iff.2 ⟨(u, w), h, by simp⟩

theorem mem_events_of_entry (events : List (String × String)) {p : String × List String}
    (hp : p ∈ (recordAll emptyStore events).userWatchHistory) {w : String} (hw : w ∈ p.2) :
    (p.1, w) ∈ events := by
  have hwf := recordAll_WF emptyStore_WF events
  have hfind := mapFind_of_mem hwf.1 (show (p.1, p.2) ∈ _ from hp)
  have hset : w ∈ watchSet (recordAll emptyStore events) p.1 := by
    unfold watchSet
    rw [hfind]
    exact hw
  rcases (watchSet_recordAll emptyStore events p.1 w).1 hset with h | h
  · simp [watchSet, emptyStore, mapFind] at h
  · exact h

/-- C19, as amended: in every store reachable from the empty store by `updateWatchHistory`
calls, every video that is a member of some user's watch-set has an entry in the popularity
map, so the popularity lookup inside `generateRecommendations` never meets a missing key
and the scan leaves the popularity map as it was; the count of such a video is at least 1
provided the video was watched at most `INT_MAX` times; and the accumulated score of a
candidate is at least 1 provided the number of its co-watchers times the number of times it
was watched is at most `INT_MAX`. -/
theorem reachable_counted (events : List (String × String)) :
    (∀ p ∈ (recordAll emptyStore events).userWatchHistory, ∀ w ∈ p.2,
      (mapFind w (recordAll emptyStore events).videoPopularity).isSome ∧
      ((watchEvents events w : Int) ≤ INT_MAX →
        1 ≤ popularity (recordAll emptyStore events) w)) ∧
    (∀ T, (recommendationScores (recordAll emptyStore events) T).2 =
      (recordAll emptyStore events).videoPopularity) ∧
    (∀ T, ∀ c ∈ candidates (recordAll emptyStore events) T,
      ((coWatchers (recordAll emptyStore events) T c).length : Int) *
          (watchEvents events c : Int) ≤ INT_MAX →
        1 ≤ scoreOf (recordAll emptyStore events) T c) := by
  have hwf := recordAll_WF emptyStore_WF events
  have hcounted := recordAll_counted (s := emptyStore)
    (fun _ hp => absurd hp (List.not_mem_nil _)) events
  have hpop : ∀ p ∈ (recordAll emptyStore events).userWatchHistory, ∀ w ∈ p.2,
      (watchEvents events w : Int) ≤ INT_MAX →
        popularity (recordAll emptyStore events) w = (watchEvents events w : Int) ∧
        (1 : Int) ≤ (watchEvents events w : Int) := by
    intro p hp w hw hb
    have hpos : (1 : Int) ≤ (watchEvents events w : Int) := by
      exact_mod_cast watchEvents_pos (mem_events_of_entry events hp hw)
    refine ⟨?_, hpos⟩
    rw [popularity_recordAll_empty]
    apply wrapInt_of_range _ hb
    unfold INT_MIN
    omega
  refine ⟨?_, ?_, ?_⟩
  · intro p hp w hw
    refine ⟨(mapFind_isSome_iff w _).2 (hcounted p hp w hw), ?_⟩
    intro hb
    obtain ⟨h1, h2⟩ := hpop p hp w hw hb
    rw [h1]
    exact h2
  · intro T
    exact scoreUsers_snd_eq T (recordAll emptyStore events).userWatchHistory
      ([], (recordAll emptyStore events).videoPopularity) hcounted
  · intro T c hc hb
    obtain ⟨p, hp, _, hcp, hne⟩ := (mem_candidates _ T c).1 hc
    have hk : (1 : Int) ≤ ((coWatchers (recordAll emptyStore events) T c).length : Int) := by
      exact_mod_cast ((mem_candidates_iff_coWatchers _ T c).1 hc).1
    have hpos : (1 : Int) ≤ (watchEvents events c : Int) := by
      exact_mod_cast watchEvents_pos (mem_events_of_entry events hp hcp)
    have hprod : (1 : Int) ≤ ((coWatchers (recordAll emptyStore events) T c).length : Int) *
        (watchEvents events c : Int) := by
      have := Int.mul_le_mul hk hpos (by norm_num) (by omega)
      simpa using this
    have hle : (watchEvents events c : Int) ≤
        ((coWatchers (recordAll emptyStore events) T c).length : Int) *
          (watchEvents events c : Int) := by
      have := Int.mul_le_mul_of_nonneg_right hk (show (0 : Int) ≤ (watchEvents events c : Int) by omega)
      simpa using this
    obtain ⟨h1, _⟩ := hpop p hp c hcp (le_trans hle hb)
    rw [scoreOf_eq_wrapInt hwf T hne, h1, wrapInt_of_range _ hb]
    · exact hprod
    · unfold INT_MIN
      omega

/-- Witness for C19: after the six watch events of `demoStore` every watched video has a
count of at least 1, and each candidate for `A` has a score of at least 1. -/
theorem reachable_counted_witness :
    (1 ≤ popularity (recordAll emptyStore
      [("u1", "A"), ("u1", "B"), ("u1", "C"), ("u2", "A"), ("u2", "C"), ("u3", "B")]) "C") ∧
    (recommendationScores (recordAll emptyStore
      [("u1", "A"), ("u1", "B"), ("u1", "C"), ("u2", "A"), ("u2", "C"), ("u3", "B")]) "A").2 =
      (recordAll emptyStore
      [("u1", "A"), ("u1", "B"), ("u1", "C"), ("u2", "A"), ("u2", "C"), ("u3", "B")]).videoPopularity ∧
    (1 ≤ scoreOf (recordAll emptyStore
      [("u1", "A"), ("u1", "B"), ("u1", "C"), ("u2", "A"), ("u2", "C"), ("u3", "B")]) "A" "C") :=
  ⟨((reachable_counted
      [("u1", "A"), ("u1", "B"), ("u1", "C"), ("u2", "A"), ("u2", "C"), ("u3", "B")]).1
      ("u1", ["A", "B", "C"]) (by decide) "C" (by decide)).2 (by decide),
    (reachable_counted
      [("u1", "A"), ("u1", "B"), ("u1", "C"), ("u2", "A"), ("u2", "C"), ("u3", "B")]).2.1 "A",
    (reachable_counted
      [("u1", "A"), ("u1", "B"), ("u1", "C"), ("u2", "A"), ("u2", "C"), ("u3", "B")]).2.2
      "A" "C" (by decide) (by decide)⟩

/-- C19 as stated fails: after 2147483648 calls `updateWatchHistory("u", "v")` on the empty
store the video `v` is in the watch-set of `u`, and its count is below 1. -/
theorem reachable_counted_overflow :
    Reachable (recordAll emptyStore (List.replicate 2147483648 ("u", "v"))) ∧
    "v" ∈ watchSet (recordAll emptyStore (List.replicate 2147483648 ("u", "v"))) "u" ∧
    popularity (recordAll emptyStore (List.replicate 2147483648 ("u", "v"))) "v" < 1 := by
  refine ⟨⟨_, rfl⟩, ?_, ?_⟩
  · exact (watchSet_recordAll emptyStore _ "u" "v").2
      (Or.inr (List.mem_replicate.2 ⟨by decide, rfl⟩))
  · rw [popularity_recordAll_empty, watchEvents_replicate]
    decide

/-- C20: for every store and target video `T`, the list returned by
`generateRecommendations(T)` contains no video ID more than once; in `demoStore` the video
`C`, co-watched with `A` by two users, is returned once. -/
theorem generateRecommendations_nodup (s : Store) (T : String) :
    (generateRecommendations s T).1.Nodup ∧
    (coWatchers demoStore "A" "C").length = 2 ∧
    (generateRecommendations demoStore "A").1.count "C" = 1 := by
  refine ⟨?_, by decide, by decide⟩
  rw [generateRecommendations_fst, List.map_take]
  exact List.Nodup.sublist (List.take_sublist 10 _) (scoredRecommendations_keys_nodup s T)

end Server
